import Mathlib

/-!
# Note scheduling and hit judgment of the osu!mania clone (`src/src/main.cpp`)

A shallow embedding of the `Beatmap` and `OsuMania` classes.

Modelling conventions:
* C++ `float` values (times, positions, timers) are exact rationals `ℚ`;
  rounding, infinities and NaN are outside the model.
* C++ `int` values are `Int`.  Signed overflow is undefined behaviour in C++,
  so the model describes executions in which the counters stay in range.
* Rendering data of a note (`rect`, `color`) and of a judgment (`text`,
  `color`) is presentational, is never read by the logic, and is left out.
* Results of library calls that the logic reads (`Mix_PlayingMusic`, the
  random draws, `std::stof`, `std::stoi`, `std::sort`) are inputs of the model.
-/

namespace OsuMania

/-! ## Constants -/

def COLUMN_COUNT : Int := 4
def NOTE_HEIGHT : Int := 20
def NOTE_SPEED : Int := 1000
def JUDGMENT_LINE_Y : Int := 500
def PERFECT_WINDOW : Int := 20
def GREAT_WINDOW : Int := 50
def GOOD_WINDOW : Int := 100

/-- The expression `JUDGMENT_LINE_Y + NOTE_HEIGHT * 2` that `update` compares
a note position with. -/
def missThreshold : ℚ := ((JUDGMENT_LINE_Y + NOTE_HEIGHT * 2 : Int) : ℚ)

/-- The value of `std::numeric_limits<float>::max()`, which is `(2^24 - 1) * 2^104`. -/
def FLT_MAX : ℚ := 340282346638528859811704183484516925440

/-! ## Data model -/

inductive JudgmentType where
  | PERFECT
  | GREAT
  | GOOD
  | MISS
  | NONE
  deriving DecidableEq, Repr

structure BeatmapNote where
  time : ℚ
  column : Int
  deriving DecidableEq, Repr

structure Note where
  position : ℚ
  column : Int
  hit : Bool
  missed : Bool
  deriving DecidableEq, Repr

structure Judgment where
  type : JudgmentType
  displayTime : ℚ
  deriving DecidableEq, Repr

structure Beatmap where
  notes : List BeatmapNote
  loaded : Bool
  title : String
  musicFile : String
  offset : ℚ
  songLength : ℚ
  deriving DecidableEq, Repr

/-- The fields of `class OsuMania` that the game logic reads or writes.
`music` records whether the `Mix_Music*` pointer is non-null. -/
structure Session where
  music : Bool
  musicPlaying : Bool
  musicStartTime : ℚ
  musicLoaded : Bool
  notes : List Note
  keyStates : List Bool
  gameRunning : Bool
  gameStarted : Bool
  gameEnded : Bool
  score : Int
  combo : Int
  maxCombo : Int
  totalHits : Int
  perfectHits : Int
  greatHits : Int
  goodHits : Int
  missedHits : Int
  currentJudgment : Judgment
  noteGenerationTimer : ℚ
  nextGenerationInterval : ℚ
  currentBeatmap : Beatmap
  gameTime : ℚ
  useRandomNotes : Bool
  beatmapFile : String
  deriving DecidableEq, Repr

/-- The default constructor `Beatmap()`; the strings and the vector are
default-initialised to empty. -/
def Beatmap.new : Beatmap :=
  { notes := [], loaded := false, title := "", musicFile := "", offset := 0, songLength := 0 }

/-- The constructor `OsuMania()`. -/
def Session.new : Session :=
  { music := false
    musicPlaying := false
    musicStartTime := 0
    musicLoaded := false
    notes := []
    keyStates := [false, false, false, false]
    gameRunning := true
    gameStarted := false
    gameEnded := false
    score := 0
    combo := 0
    maxCombo := 0
    totalHits := 0
    perfectHits := 0
    greatHits := 0
    goodHits := 0
    missedHits := 0
    currentJudgment := { type := JudgmentType.NONE, displayTime := 0 }
    noteGenerationTimer := 0
    nextGenerationInterval := 1 / 2
    currentBeatmap := Beatmap.new
    gameTime := 0
    useRandomNotes := true
    beatmapFile := "his_theme.txt" }

/-- A note is unresolved when `!note.hit && !note.missed`. -/
def Note.unresolved (n : Note) : Bool := !n.hit && !n.missed

/-- The expression `std::abs(note.position - JUDGMENT_LINE_Y)`. -/
def Note.distance (n : Note) : ℚ := |n.position - (JUDGMENT_LINE_Y : ℚ)|

/-! ## Judgment engine -/

/-- `OsuMania::showJudgment`: sets the displayed judgment and its timer. -/
def showJudgment (s : Session) (t : JudgmentType) : Session :=
  { s with currentJudgment := { type := t, displayTime := 1 / 2 } }

/-- The scan loop of `handleKeyPress` over the notes not yet visited.  `i` is
the index of the head of the list in the whole collection; `closestNote` is
the index the pointer refers to (`none` for `nullptr`). -/
def scanClosest (columnIndex : Int) :
    List Note → Nat → Option Nat → ℚ → Option Nat × ℚ
  | [], _, closestNote, closestDistance => (closestNote, closestDistance)
  | note :: rest, i, closestNote, closestDistance =>
    if note.column = columnIndex ∧ note.hit = false ∧ note.missed = false then
      if note.distance < closestDistance then
        scanClosest columnIndex rest (i + 1) (some i) note.distance
      else
        scanClosest columnIndex rest (i + 1) closestNote closestDistance
    else
      scanClosest columnIndex rest (i + 1) closestNote closestDistance

/-- The pair `(closestNote, closestDistance)` after the scan loop of
`handleKeyPress(columnIndex)`. -/
def closest (s : Session) (columnIndex : Int) : Option Nat × ℚ :=
  scanClosest columnIndex s.notes 0 none FLT_MAX

/-- The assignment `closestNote->hit = true` on the note at index `i`. -/
def markHit (notes : List Note) (i : Nat) : List Note :=
  notes.modify (fun n => { n with hit := true }) i

/-- `OsuMania::handleKeyPress`. -/
def handleKeyPress (s : Session) (columnIndex : Int) : Session :=
  if s.gameStarted = false then s
  else
    match closest s columnIndex with
    | (some i, closestDistance) =>
      if closestDistance < (GOOD_WINDOW : ℚ) then
        let s1 := { s with notes := markHit s.notes i, totalHits := s.totalHits + 1 }
        let s2 : Session :=
          if closestDistance < (PERFECT_WINDOW : ℚ) then
            let s := showJudgment s1 JudgmentType.PERFECT
            { s with score := s.score + (300 + s.combo * 5)
                     combo := s.combo + 1
                     perfectHits := s.perfectHits + 1 }
          else if closestDistance < (GREAT_WINDOW : ℚ) then
            let s := showJudgment s1 JudgmentType.GREAT
            { s with score := s.score + (200 + s.combo * 3)
                     combo := s.combo + 1
                     greatHits := s.greatHits + 1 }
          else
            let s := showJudgment s1 JudgmentType.GOOD
            { s with score := s.score + (100 + s.combo)
                     combo := s.combo + 1
                     goodHits := s.goodHits + 1 }
        if s2.combo > s2.maxCombo then { s2 with maxCombo := s2.combo } else s2
      else s
    | (none, _) => s

/-- `OsuMania::handleMiss`. -/
def handleMiss (s : Session) : Session :=
  let s := showJudgment s JudgmentType.MISS
  { s with combo := 0, totalHits := s.totalHits + 1, missedHits := s.missedHits + 1 }

/-! ## Note field and spawn scheduler -/

/-- `OsuMania::createNote`: appends a fresh unresolved note at position 0. -/
def createNote (s : Session) (columnIndex : Int) : Session :=
  { s with notes := s.notes ++ [{ position := 0, column := columnIndex, hit := false, missed := false }] }

/-- The outcomes of the random draws that one call may make:
`notesCountDist(rng)`, `columnDist(rng)`, `patternDist(rng)`,
`startColDist(rng)`, the vector `availableCols` after `std::shuffle`, and
`timeDist(rng)`. -/
structure Rng where
  notesCount : Int
  column : Int
  patternType : Int
  startCol : Int
  shuffled : List Int
  interval : ℚ
  deriving DecidableEq, Repr

/-- `OsuMania::generateNotePattern`. -/
def generateNotePattern (s : Session) (notesCount : Int) (r : Rng) : Session :=
  if notesCount = 1 then
    createNote s r.column
  else if notesCount = 2 then
    if r.patternType = 0 then
      createNote (createNote s r.startCol) (r.startCol + 1)
    else
      createNote (createNote s 0) (COLUMN_COUNT - 1)
  else if notesCount = 3 then
    (r.shuffled.take 3).foldl createNote s
  else
    createNote s r.column

/-- `OsuMania::resetStats`; `interval` is the value drawn from `timeDist(rng)`. -/
def resetStats (s : Session) (interval : ℚ) : Session :=
  { s with
    score := 0
    combo := 0
    maxCombo := 0
    totalHits := 0
    perfectHits := 0
    greatHits := 0
    goodHits := 0
    missedHits := 0
    notes := []
    gameTime := 0
    gameEnded := false
    nextGenerationInterval := interval
    noteGenerationTimer := 0 }

/-- The loop of `Beatmap::getNotesAtTime` over the pending events from the
iterator position on: the columns pushed and the events that stay. -/
def drainNotes (currentTime : ℚ) : List BeatmapNote → List Int × List BeatmapNote
  | [] => ([], [])
  | it :: rest =>
    if |it.time - currentTime| < 1 / 100 then
      let r := drainNotes currentTime rest
      (it.column :: r.1, r.2)
    else if it.time > currentTime then
      ([], it :: rest)
    else
      let r := drainNotes currentTime rest
      (r.1, it :: r.2)

/-- `Beatmap::getNotesAtTime`: the returned columns and the beatmap afterwards. -/
def Beatmap.getNotesAtTime (b : Beatmap) (currentTime : ℚ) : List Int × Beatmap :=
  ((drainNotes currentTime b.notes).1, { b with notes := (drainNotes currentTime b.notes).2 })

/-- `Beatmap::hasMoreNotes`. -/
def Beatmap.hasMoreNotes (b : Beatmap) : Bool := !b.notes.isEmpty

/-- The movement and miss-detection loop of `update` over the notes not yet
visited; the session carries the statistics that `handleMiss` changes. -/
def moveNotes (deltaTime : ℚ) : List Note → Session → List Note × Session
  | [], s => ([], s)
  | note :: rest, s =>
    if note.hit = false ∧ note.missed = false then
      let moved : Note := { note with position := note.position + (NOTE_SPEED : ℚ) * deltaTime }
      if moved.position > missThreshold then
        let r := moveNotes deltaTime rest (handleMiss s)
        ({ moved with missed := true } :: r.1, r.2)
      else
        let r := moveNotes deltaTime rest s
        (moved :: r.1, r.2)
    else
      let r := moveNotes deltaTime rest s
      (note :: r.1, r.2)

/-- What one call of `update` receives from outside: the measured frame
time, the answer of `Mix_PlayingMusic()`, and the random draws. -/
structure Tick where
  deltaTime : ℚ
  mixPlayingMusic : Bool
  rng : Rng
  deriving DecidableEq, Repr

/-- First part of `update`: the clock and the music flag. -/
def updateClock (s : Session) (t : Tick) : Session :=
  let s := { s with gameTime := s.gameTime + t.deltaTime }
  if s.musicPlaying = true ∧ t.mixPlayingMusic = false then { s with musicPlaying := false } else s

/-- The state in which the beatmap branch of `update` evaluates the
end-of-song condition: clock advanced, due events drained and spawned. -/
def afterBeatmapSpawn (s : Session) (t : Tick) : Session :=
  let s := updateClock s t
  let adjustedTime := s.gameTime - s.currentBeatmap.offset
  let r := s.currentBeatmap.getNotesAtTime adjustedTime
  r.1.foldl createNote { s with currentBeatmap := r.2 }

/-- The end-of-song condition tested by the beatmap branch of `update`. -/
def endOfSong (s : Session) : Bool :=
  !s.currentBeatmap.hasMoreNotes && s.notes.isEmpty &&
    decide (s.gameTime > s.currentBeatmap.songLength + s.currentBeatmap.offset) &&
    !s.musicPlaying

/-- The clock step and the spawn step of `update`: everything before the
movement loop.  Both branches start from the session after `updateClock`. -/
def updateSpawn (s : Session) (t : Tick) : Session :=
  if s.useRandomNotes = false then
    let s := afterBeatmapSpawn s t
    if endOfSong s = true then { s with gameStarted := false, gameEnded := true } else s
  else
    let s := updateClock s t
    let s := { s with noteGenerationTimer := s.noteGenerationTimer + t.deltaTime }
    if s.noteGenerationTimer > s.nextGenerationInterval then
      let s := generateNotePattern s t.rng.notesCount t.rng
      { s with noteGenerationTimer := 0, nextGenerationInterval := t.rng.interval }
    else s

/-- The judgment display timer step of `update`. -/
def updateJudgment (s : Session) (deltaTime : ℚ) : Session :=
  if s.currentJudgment.type ≠ JudgmentType.NONE then
    let j : Judgment := { s.currentJudgment with displayTime := s.currentJudgment.displayTime - deltaTime }
    if j.displayTime ≤ 0 then { s with currentJudgment := { j with type := JudgmentType.NONE } }
    else { s with currentJudgment := j }
  else s

/-- The erase-remove step of `update`. -/
def purge (notes : List Note) : List Note :=
  notes.filter (fun note => !(note.hit || note.missed))

/-- `OsuMania::update`. -/
def update (s : Session) (t : Tick) : Session :=
  let s := updateSpawn s t
  let r := moveNotes t.deltaTime s.notes s
  let s := { r.2 with notes := r.1 }
  let s := updateJudgment s t.deltaTime
  { s with notes := purge s.notes }

/-- `OsuMania::playMusic`. -/
def playMusic (s : Session) : Session :=
  if s.music = true then { s with musicPlaying := true } else s

/-- `OsuMania::stopMusic`. -/
def stopMusic (s : Session) : Session :=
  if s.musicPlaying = true then { s with musicPlaying := false } else s

/-- `OsuMania::startGame`; `interval` is the draw made by `resetStats`. -/
def startGame (s : Session) (interval : ℚ) : Session :=
  let s := { s with gameStarted := true }
  let s := resetStats s interval
  let s := { s with gameTime := 0 }
  if s.musicLoaded = true ∧ s.useRandomNotes = false then
    { (playMusic s) with musicStartTime := 0 }
  else s

/-! ## Beatmap loading -/

/-- The standard-library functions `loadFromFile` calls.  `stof` and `stoi`
give `none` where `std::stof` / `std::stoi` throw.  `sort` is `std::sort`
with the comparator `a.time < b.time`: the result is a permutation of the
input in which no event is earlier than one before it; the order of events
with equal time is not fixed by the standard. -/
structure StdLib where
  stof : String → Option ℚ
  stoi : String → Option Int
  sort : List BeatmapNote → List BeatmapNote
  sort_perm : ∀ l, (sort l).Perm l
  sort_sorted : ∀ l, (sort l).Pairwise (fun a b => ¬ b.time < a.time)

/-- The test `line.empty() || line[0] == '#' || line[0] == '/'`. -/
def isSkipped (line : String) : Bool :=
  match line.toList with
  | [] => true
  | c :: _ => c == '#' || c == '/'

/-- The condition `std::getline(iss, timeStr, ',') && std::getline(iss, columnStr)`
on a non-empty line: the text before the first comma and the text after it.
The second `getline` fails when the line has no comma or nothing after it. -/
def splitLine (line : String) : Option (String × String) :=
  match line.toList.dropWhile (fun c => c != ',') with
  | [] => none
  | _ :: columnChars =>
    if columnChars = [] then none
    else some (String.mk (line.toList.takeWhile (fun c => c != ',')), String.mk columnChars)

/-- The `while (std::getline(file, line))` loop of `loadFromFile`, carrying
the vector `notes` and the field `songLength`. -/
def parseLines (L : StdLib) : List String → List BeatmapNote → ℚ → List BeatmapNote × ℚ
  | [], notes, songLength => (notes, songLength)
  | line :: rest, notes, songLength =>
    if isSkipped line = true then parseLines L rest notes songLength
    else
      match splitLine line with
      | some (timeStr, columnStr) =>
        match L.stof timeStr with
        | some time =>
          match L.stoi columnStr with
          | some column =>
            if column ≥ 0 ∧ column < COLUMN_COUNT then
              parseLines L rest (notes ++ [{ time := time, column := column }])
                (if time > songLength then time else songLength)
            else parseLines L rest notes songLength
          | none => parseLines L rest notes songLength
        | none => parseLines L rest notes songLength
      | none => parseLines L rest notes songLength

/-- The three header reads of `loadFromFile`: each field is assigned only
when its `getline` succeeds. -/
def readHeader (L : StdLib) (b : Beatmap) (lines : List String) : Beatmap × List String :=
  match lines with
  | [] => (b, [])
  | title :: r1 =>
    let b := { b with title := title }
    match r1 with
    | [] => (b, [])
    | musicFile :: r2 =>
      let b := { b with musicFile := musicFile }
      match r2 with
      | [] => (b, [])
      | line :: r3 =>
        ({ b with offset := match L.stof line with
                            | some v => v / 1000
                            | none => 0 }, r3)

/-- `Beatmap::loadFromFile`.  The file is `none` when it does not open,
otherwise the list of its lines as `std::getline` delivers them. -/
def loadFromFile (L : StdLib) (b : Beatmap) (file : Option (List String)) : Bool × Beatmap :=
  match file with
  | none => (false, b)
  | some lines =>
    let b := { b with notes := [] }
    let h := readHeader L b lines
    let r := parseLines L h.2 h.1.notes h.1.songLength
    let b := { h.1 with notes := r.1, songLength := r.2 + 5 }
    let b := { b with notes := L.sort b.notes }
    let b := { b with loaded := !b.notes.isEmpty && !b.musicFile.isEmpty }
    (b.loaded, b)

/-- The event of a valid data line, in the words of the file format: the
line is not blank and not a comment, reads as `time,column`, and the column
is in `[0, 4)`. -/
def validEvent (L : StdLib) (line : String) : Option BeatmapNote :=
  if isSkipped line = true then none
  else
    match splitLine line with
    | none => none
    | some (timeStr, columnStr) =>
      match L.stof timeStr, L.stoi columnStr with
      | some time, some column =>
        if 0 ≤ column ∧ column < 4 then some { time := time, column := column } else none
      | _, _ => none

/-- The events of the valid data lines of a file, in file order: the lines
after the three header lines that `validEvent` accepts. -/
def validEvents (L : StdLib) (lines : List String) : List BeatmapNote :=
  (lines.drop 3).filterMap (validEvent L)

/-! ## Reachable sessions -/

/-- The sessions reachable from a freshly constructed session, or from any
session right after `resetStats`, by key presses, auto-misses and ticks. -/
inductive Reachable : Session → Prop where
  | fresh : Reachable Session.new
  | reset (s : Session) (interval : ℚ) : Reachable (resetStats s interval)
  | keyPress (s : Session) (columnIndex : Int) :
      Reachable s → Reachable (handleKeyPress s columnIndex)
  | miss (s : Session) : Reachable s → Reachable (handleMiss s)
  | tick (s : Session) (t : Tick) : Reachable s → Reachable (update s t)

/-- The statistics block of a session: score, combo, maxCombo, totalHits,
perfectHits, greatHits, goodHits, missedHits. -/
def stats (s : Session) : Int × Int × Int × Int × Int × Int × Int × Int :=
  (s.score, s.combo, s.maxCombo, s.totalHits, s.perfectHits, s.greatHits, s.goodHits, s.missedHits)

/-- The counter identity `totalHits == perfectHits + greatHits + goodHits + missedHits`. -/
def hitsBalanced (s : Session) : Prop :=
  s.totalHits = s.perfectHits + s.greatHits + s.goodHits + s.missedHits

/-- A note that the movement loop of a tick of length `deltaTime` marks
missed: unresolved, and past `missThreshold` once advanced. -/
def crosses (deltaTime : ℚ) (n : Note) : Bool :=
  n.unresolved && decide (n.position + (NOTE_SPEED : ℚ) * deltaTime >
    missThreshold)

/-- A note that the movement loop advances and keeps unresolved. -/
def survives (deltaTime : ℚ) (n : Note) : Bool :=
  n.unresolved && !decide (n.position + (NOTE_SPEED : ℚ) * deltaTime >
    missThreshold)

/-- The note after `note.position += NOTE_SPEED * deltaTime`. -/
def advance (deltaTime : ℚ) (n : Note) : Note :=
  { n with position := n.position + (NOTE_SPEED : ℚ) * deltaTime }

/-- The notes the scan of `handleKeyPress(columnIndex)` considers: those in
the column that are neither hit nor missed. -/
def candidate (columnIndex : Int) (n : Note) : Prop :=
  n.column = columnIndex ∧ n.hit = false ∧ n.missed = false

/-- The per-note effect of the movement loop. -/
def moveNote (dt : ℚ) (n : Note) : Note :=
  if crosses dt n = true then { advance dt n with missed := true }
  else if n.unresolved = true then advance dt n else n

/-- The note that `createNote(columnIndex)` appends. -/
def newNote (columnIndex : Int) : Note :=
  { position := 0, column := columnIndex, hit := false, missed := false }

/-- The two flags that tell the session states apart: `gameStarted`, `gameEnded`. -/
def flags (s : Session) : Bool × Bool := (s.gameStarted, s.gameEnded)

/-! ## Example sessions -/

/-- A running session with combo 10 and one note 5 before the judgment line in column 1. -/
def sessionCombo10 : Session :=
  { Session.new with
    gameStarted := true
    combo := 10
    maxCombo := 10
    notes := [{ position := 495, column := 1, hit := false, missed := false }] }

/-- A running session with one unresolved note at the given position in column 1. -/
def sessionNoteAt (position : ℚ) : Session :=
  { Session.new with
    gameStarted := true
    notes := [{ position := position, column := 1, hit := false, missed := false }] }

/-- A tick of 16 ms with music silent and fixed random draws. -/
def tick16 : Tick :=
  { deltaTime := 16 / 1000
    mixPlayingMusic := false
    rng := { notesCount := 1, column := 2, patternType := 0, startCol := 0,
             shuffled := [2, 0, 3, 1], interval := 1 / 2 } }

/-- A running beatmap-mode session whose song is over: nothing pending, no
notes in flight, clock at 10 s with a 7 s song, music silent. -/
def sessionSongOver : Session :=
  { Session.new with
    gameStarted := true
    useRandomNotes := false
    gameTime := 10
    currentBeatmap := { Beatmap.new with loaded := true, musicFile := "song.mp3", songLength := 7 } }

/-- A running beatmap-mode session at the given game time whose beatmap
holds the single pending event `2.0,1`, with offset 0. -/
def sessionSingleEvent (gameTime : ℚ) : Session :=
  { Session.new with
    gameStarted := true
    useRandomNotes := false
    gameTime := gameTime
    currentBeatmap :=
      { Beatmap.new with
        notes := [{ time := 2, column := 1 }]
        loaded := true
        musicFile := "song.mp3"
        songLength := 7 } }

/-- A tick of 40 ms with music playing and fixed random draws. -/
def tick40 : Tick :=
  { deltaTime := 40 / 1000
    mixPlayingMusic := true
    rng := { notesCount := 1, column := 2, patternType := 0, startCol := 0,
             shuffled := [2, 0, 3, 1], interval := 1 / 2 } }

/-! ## Views of the scheduler -/

/-- The test `std::abs(it->time - currentTime) < 0.01f` of `getNotesAtTime`. -/
def inWindow (currentTime : ℚ) (e : BeatmapNote) : Bool :=
  decide (|e.time - currentTime| < 1 / 100)

/-- A beatmap with four pending events in time order, two of them at 2.0 s. -/
def beatmapFourEvents : Beatmap :=
  { Beatmap.new with
    notes := [{ time := 1, column := 0 }, { time := 2, column := 1 }, { time := 2, column := 3 },
      { time := 3, column := 2 }]
    loaded := true
    musicFile := "song.mp3"
    songLength := 8 }

/-- The columns `generateNotePattern(notesCount)` passes to `createNote`, in
call order. -/
def patternColumns (notesCount : Int) (r : Rng) : List Int :=
  if notesCount = 1 then [r.column]
  else if notesCount = 2 then
    if r.patternType = 0 then [r.startCol, r.startCol + 1] else [0, COLUMN_COUNT - 1]
  else if notesCount = 3 then r.shuffled.take 3
  else [r.column]

/-- The columns of the notes one call of `update` creates, in creation order:
the drained beatmap events, or the generated pattern when the timer fires. -/
def spawnedColumns (s : Session) (t : Tick) : List Int :=
  if s.useRandomNotes = false then
    (drainNotes (s.gameTime + t.deltaTime - s.currentBeatmap.offset) s.currentBeatmap.notes).1
  else if s.noteGenerationTimer + t.deltaTime > s.nextGenerationInterval then
    patternColumns t.rng.notesCount t.rng
  else []

/-- A procedural-mode session right after the start of the game. -/
def sessionProcedural : Session :=
  { Session.new with gameStarted := true }

/-- A tick of 600 ms in which the generator draws one note for column 2. -/
def tick600 : Tick :=
  { deltaTime := 600 / 1000
    mixPlayingMusic := false
    rng := { notesCount := 1, column := 2, patternType := 0, startCol := 0,
             shuffled := [2, 0, 3, 1], interval := 1 / 2 } }

/-! ## Library instances and beatmap files for the examples -/

/-- The value of a string of decimal digits read left to right, `none` if a
character is not a digit. -/
def digitsValue : List Char → Nat → Option Nat
  | [], acc => some acc
  | c :: cs, acc =>
    if c.isDigit = true then digitsValue cs (acc * 10 + (c.toNat - 48)) else none

/-- A non-empty string of decimal digits as a number. -/
def parseNat (cs : List Char) : Option Nat :=
  match cs with
  | [] => none
  | _ :: _ => digitsValue cs 0

/-- An integer reader for the examples: it reads plain decimal numerals that
fit an `int`, as `std::stoi` does, and rejects every other text. -/
def plainStoi (s : String) : Option Int :=
  match parseNat s.toList with
  | some n => if n ≤ 2147483647 then some (n : Int) else none
  | none => none

/-- A float reader for the examples: it reads plain numerals `digits` and
`digits.digits`, as `std::stof` does up to rounding, and rejects every other
text. -/
def plainStof (s : String) : Option ℚ :=
  match s.toList.dropWhile (fun c => c != '.') with
  | [] =>
    match parseNat s.toList with
    | some a => some (a : ℚ)
    | none => none
  | _ :: fraction =>
    match parseNat (s.toList.takeWhile (fun c => c != '.')), parseNat fraction with
    | some a, some b => some ((a : ℚ) + (b : ℚ) / (10 : ℚ) ^ fraction.length)
    | _, _ => none

/-- The order the comparator of `loadFromFile` induces: not later than. -/
def timeLe (a b : BeatmapNote) : Prop := a.time ≤ b.time

instance timeLe_decidable : DecidableRel timeLe :=
  fun a b => inferInstanceAs (Decidable (a.time ≤ b.time))

instance timeLe_total : IsTotal BeatmapNote timeLe := ⟨fun a b => le_total a.time b.time⟩

instance timeLe_trans : IsTrans BeatmapNote timeLe := ⟨fun _ _ _ h1 h2 => le_trans h1 h2⟩

/-- The stable sort by time: events with equal time keep their input order. -/
def stableSort (l : List BeatmapNote) : List BeatmapNote := List.insertionSort timeLe l

/-- A library whose `std::sort` happens to be stable. -/
def stableLib : StdLib where
  stof := plainStof
  stoi := plainStoi
  sort := stableSort
  sort_perm := fun l => List.perm_insertionSort timeLe l
  sort_sorted := fun l => (List.sorted_insertionSort timeLe l).imp (fun h => not_lt.mpr h)

/-- The load keeps file order among events with equal time: for every time,
the loaded events with that time are the file's valid events with that time,
in file order. -/
def keepsFileOrderOfTies (L : StdLib) (b : Beatmap) (lines : List String) : Prop :=
  ∀ τ : ℚ, ((loadFromFile L b (some lines)).2.notes).filter (fun e => decide (e.time = τ)) =
    (validEvents L lines).filter (fun e => decide (e.time = τ))

/-- The running maximum `if (time > songLength) songLength = time` over events. -/
def maxTime (songLength : ℚ) (events : List BeatmapNote) : ℚ :=
  events.foldl (fun m e => if e.time > m then e.time else m) songLength

/-- A beatmap file with the single event `2.0,1`. -/
def fileSingleEvent : List String := ["Title", "song.mp3", "0", "2.0,1"]

/-- A beatmap file with events at different times, comments, a blank line
and malformed data lines. -/
def fileMixed : List String :=
  ["Title", "song.mp3", "0", "2.0,1", "# comment", "", "1.5,3", "x,1", "3.0,7", "1.0", "2.5,",
    ",2", "0.5,0"]

/-- A beatmap file with a header and no data lines. -/
def fileHeaderOnly : List String := ["Title", "song.mp3", "0", "# no events"]

/-! ## Event handling -/

/-- The key codes `handleEvent` tells apart: `SDLK_ESCAPE`, `SDLK_SPACE`,
`SDLK_r`, the four bound keys, and any other key. -/
inductive Keycode where
  | ESCAPE
  | SPACE
  | r
  | d
  | f
  | j
  | k
  | other
  deriving DecidableEq, Repr

/-- The array `KEY_BINDINGS`. -/
def KEY_BINDINGS : List Keycode := [Keycode.d, Keycode.f, Keycode.j, Keycode.k]

/-- The event types `handleEvent` tells apart. -/
inductive Event where
  | QUIT
  | KEYDOWN (sym : Keycode)
  | KEYUP (sym : Keycode)
  | OTHER
  deriving DecidableEq, Repr

/-- What one call of `handleEvent` may read from outside: the beatmap file
(for a reload) and the draws of `timeDist(rng)` made by the first and the
second `resetStats` of the call. -/
structure Env where
  file : Option (List String)
  interval1 : ℚ
  interval2 : ℚ

/-- `OsuMania::shutdown`. -/
def shutdown (s : Session) : Session := { s with gameRunning := false }

/-- The `for` loop of the key-down branch over the column indices not yet
visited: a bound key that is not held is marked held and judged. -/
def pressLoop (sym : Keycode) : List Nat → Session → Session
  | [], s => s
  | i :: rest, s =>
    if KEY_BINDINGS[i]? = some sym ∧ s.keyStates[i]? = some false then
      pressLoop sym rest (handleKeyPress { s with keyStates := s.keyStates.set i true } (i : Int))
    else pressLoop sym rest s

/-- The tail of the key-down branch: `if (gameStarted && !gameEnded)` run the loop. -/
def pressKeys (sym : Keycode) (s : Session) : Session :=
  if s.gameStarted = true ∧ s.gameEnded = false then pressLoop sym [0, 1, 2, 3] s else s

/-- The `for` loop of the key-up branch. -/
def releaseLoop (sym : Keycode) : List Nat → Session → Session
  | [], s => s
  | i :: rest, s =>
    if KEY_BINDINGS[i]? = some sym then
      releaseLoop sym rest { s with keyStates := s.keyStates.set i false }
    else releaseLoop sym rest s

/-- The reload branch of `handleEvent` (key `r`). -/
def reload (L : StdLib) (s : Session) (env : Env) : Session :=
  let s := stopMusic s
  let s := resetStats s env.interval1
  let s := { s with gameStarted := false }
  let r := loadFromFile L s.currentBeatmap env.file
  if r.1 = true then { s with currentBeatmap := r.2, useRandomNotes := false }
  else { s with currentBeatmap := r.2, useRandomNotes := true }

/-- The restart branch of `handleEvent` (SPACE on the results screen). -/
def restart (s : Session) (env : Env) : Session :=
  let s := { s with gameEnded := false }
  let s := resetStats s env.interval1
  startGame s env.interval2

/-- `OsuMania::handleEvent`. -/
def handleEvent (L : StdLib) (s : Session) (e : Event) (env : Env) : Session :=
  match e with
  | Event.QUIT => shutdown s
  | Event.KEYDOWN sym =>
    if sym = Keycode.ESCAPE then pressKeys sym (shutdown s)
    else if s.gameEnded = true then
      if sym = Keycode.SPACE then restart s env else s
    else if sym = Keycode.r ∧ s.gameEnded = false then pressKeys sym (reload L s env)
    else if sym = Keycode.SPACE ∧ s.gameStarted = false ∧ s.gameEnded = false then
      pressKeys sym (startGame s env.interval1)
    else pressKeys sym s
  | Event.KEYUP sym => releaseLoop sym [0, 1, 2, 3] s
  | Event.OTHER => s

/-! ## More example sessions -/

/-- The scheduler fields of a session: beatmap, game clock, mode, music flag. -/
def sched (s : Session) : Beatmap × ℚ × Bool × Bool :=
  (s.currentBeatmap, s.gameTime, s.useRandomNotes, s.musicPlaying)

/-- A tick of 10 ms with music silent and fixed random draws. -/
def tick10 : Tick :=
  { deltaTime := 10 / 1000
    mixPlayingMusic := false
    rng := { notesCount := 1, column := 2, patternType := 0, startCol := 0,
             shuffled := [2, 0, 3, 1], interval := 1 / 2 } }

/-- A tick of 6 s (a long stall) with music silent and fixed random draws. -/
def tick6s : Tick :=
  { deltaTime := 6
    mixPlayingMusic := false
    rng := { notesCount := 1, column := 2, patternType := 0, startCol := 0,
             shuffled := [2, 0, 3, 1], interval := 1 / 2 } }

/-- The draws an event handler receives in the examples, with no file to read. -/
def envNoFile : Env := { file := none, interval1 := 1 / 2, interval2 := 1 / 2 }

/-- The single-event session played to its end: the event is spawned at
song time 2.005 s, the note is missed, and the song ends after 7 s. -/
def sessionPlayedOut : Session :=
  update (update (update (sessionSingleEvent (1995 / 1000)) tick10) tick6s) tick16

/-- The draws an event handler receives in the examples, with the
header-only file on disk. -/
def envHeaderOnly : Env := { file := some fileHeaderOnly, interval1 := 1 / 2, interval2 := 1 / 2 }

/-! ## The `std::sort` of libstdc++

The algorithm of `std::sort` in libstdc++ (`bits/stl_algo.h`, `bits/stl_heap.h`
of GCC 12), the library of g++: an introsort (median-of-three partition while
a range is longer than 16, heap sort when the depth limit is used up) followed
by an insertion sort.  The vector is a list, iterators are positions in it.
Loops that the source leaves unguarded, because a sentinel element is known to
stop them, stop at the ends of the array here; `while` loops carry a bound on
their steps. -/

/-- A comparison `__comp(i, j)` of the elements at two positions of the array;
`false` when a position is outside the array. -/
def compAt {α : Type} (comp : α → α → Bool) (a : List α) (i j : Nat) : Bool :=
  match a[i]?, a[j]? with
  | some x, some y => comp x y
  | _, _ => false

/-- `std::iter_swap` on two positions of the array. -/
def iterSwap {α : Type} (a : List α) (i j : Nat) : List α :=
  match a[i]?, a[j]? with
  | some x, some y => (a.set i y).set j x
  | _, _ => a

/-- The assignment `*(first + i) = std::move(*(first + j))`. -/
def moveTo {α : Type} (a : List α) (i j : Nat) : List α :=
  match a[j]? with
  | some y => a.set i y
  | none => a

/-- `std::__move_median_to_first`. -/
def moveMedianToFirst {α : Type} (comp : α → α → Bool) (arr : List α) (result a b c : Nat) : List α :=
  if compAt comp arr a b = true then
    if compAt comp arr b c = true then iterSwap arr result b
    else if compAt comp arr a c = true then iterSwap arr result c
    else iterSwap arr result a
  else if compAt comp arr a c = true then iterSwap arr result a
  else if compAt comp arr b c = true then iterSwap arr result c
  else iterSwap arr result b

/-- The loop `while (__comp(__first, __pivot)) ++__first;` of
`__unguarded_partition`; `fuel` bounds the steps (the array length suffices,
a comparison outside the array being `false`). -/
def scanUp {α : Type} (comp : α → α → Bool) (a : List α) (pivot : Nat) : Nat → Nat → Nat
  | 0, first => first
  | fuel + 1, first =>
    if compAt comp a first pivot = true then scanUp comp a pivot fuel (first + 1) else first

/-- The loop `while (__comp(__pivot, __last)) --__last;` of
`__unguarded_partition`; it stops at position 0. -/
def scanDown {α : Type} (comp : α → α → Bool) (a : List α) (pivot : Nat) : Nat → Nat
  | 0 => 0
  | last + 1 =>
    if compAt comp a pivot (last + 1) = true then scanDown comp a pivot last else last + 1

/-- The `while (true)` loop of `std::__unguarded_partition`: the array and
the returned cut.  `fuel` bounds the iterations; each one advances `first`. -/
def unguardedPartition {α : Type} (comp : α → α → Bool) (pivot : Nat) :
    Nat → List α → Nat → Nat → List α × Nat
  | 0, a, first, _ => (a, first)
  | fuel + 1, a, first, last =>
    let first := scanUp comp a pivot a.length first
    let last := scanDown comp a pivot (last - 1)
    if ¬ first < last then (a, first)
    else unguardedPartition comp pivot fuel (iterSwap a first last) (first + 1) last

/-- `std::__unguarded_partition_pivot`. -/
def unguardedPartitionPivot {α : Type} (comp : α → α → Bool) (a : List α) (first last : Nat) :
    List α × Nat :=
  let mid := first + (last - first) / 2
  let a := moveMedianToFirst comp a first (first + 1) mid (last - 1)
  unguardedPartition comp first a.length a (first + 1) last

/-- `std::__push_heap`: the hole moves up while the parent is less than the
value; `fuel` bounds the steps (the hole index suffices). -/
def pushHeap {α : Type} (comp : α → α → Bool) (first topIndex : Nat) (value : α) :
    Nat → List α → Nat → List α
  | 0, a, holeIndex => a.set (first + holeIndex) value
  | fuel + 1, a, holeIndex =>
    let parent := (holeIndex - 1) / 2
    if holeIndex > topIndex ∧
        (match a[first + parent]? with
          | some p => comp p value
          | none => false) = true then
      pushHeap comp first topIndex value fuel (moveTo a (first + holeIndex) (first + parent)) parent
    else a.set (first + holeIndex) value

/-- The `while (__secondChild < (__len - 1) / 2)` loop of `std::__adjust_heap`:
the array and the hole index (equal to `secondChild`) after it. -/
def adjustHeapLoop {α : Type} (comp : α → α → Bool) (first len : Nat) :
    Nat → List α → Nat → List α × Nat
  | 0, a, secondChild => (a, secondChild)
  | fuel + 1, a, holeIndex =>
    if holeIndex < (len - 1) / 2 then
      let secondChild := 2 * (holeIndex + 1)
      let secondChild :=
        if compAt comp a (first + secondChild) (first + (secondChild - 1)) = true then
          secondChild - 1
        else secondChild
      adjustHeapLoop comp first len fuel (moveTo a (first + holeIndex) (first + secondChild))
        secondChild
    else (a, holeIndex)

/-- `std::__adjust_heap`. -/
def adjustHeap {α : Type} (comp : α → α → Bool) (a : List α) (first holeIndex len : Nat) (value : α) :
    List α :=
  let topIndex := holeIndex
  let r := adjustHeapLoop comp first len len a holeIndex
  let r : List α × Nat :=
    if len % 2 = 0 ∧ r.2 = (len - 2) / 2 then
      let secondChild := 2 * (r.2 + 1)
      (moveTo r.1 (first + r.2) (first + (secondChild - 1)), secondChild - 1)
    else r
  pushHeap comp first topIndex value r.2 r.1 r.2

/-- `std::__pop_heap(first, last, result)`. -/
def popHeap {α : Type} (comp : α → α → Bool) (a : List α) (first last result : Nat) : List α :=
  match a[result]? with
  | some value => adjustHeap comp (moveTo a result first) first 0 (last - first) value
  | none => a

/-- The `while (true)` loop of `std::__make_heap`, from `parent` down to 0. -/
def makeHeapLoop {α : Type} (comp : α → α → Bool) (first len : Nat) : Nat → List α → List α
  | 0, a =>
    match a[first]? with
    | some value => adjustHeap comp a first 0 len value
    | none => a
  | parent + 1, a =>
    match a[first + (parent + 1)]? with
    | some value => makeHeapLoop comp first len parent (adjustHeap comp a first (parent + 1) len value)
    | none => a

/-- `std::__make_heap`. -/
def makeHeap {α : Type} (comp : α → α → Bool) (a : List α) (first last : Nat) : List α :=
  if last - first < 2 then a
  else makeHeapLoop comp first (last - first) ((last - first - 2) / 2) a

/-- The `for` loop of `std::__heap_select` over the positions `i`. -/
def heapSelectLoop {α : Type} (comp : α → α → Bool) (first middle : Nat) : List Nat → List α → List α
  | [], a => a
  | i :: rest, a =>
    if compAt comp a i first = true then
      heapSelectLoop comp first middle rest (popHeap comp a first middle i)
    else heapSelectLoop comp first middle rest a

/-- `std::__heap_select`. -/
def heapSelect {α : Type} (comp : α → α → Bool) (a : List α) (first middle last : Nat) : List α :=
  heapSelectLoop comp first middle (List.range' middle (last - middle)) (makeHeap comp a first middle)

/-- `std::__sort_heap`: `n` is `last - first`. -/
def sortHeap {α : Type} (comp : α → α → Bool) (first : Nat) : Nat → List α → List α
  | 0, a => a
  | n + 1, a =>
    if n + 1 > 1 then sortHeap comp first n (popHeap comp a first (first + n) (first + n))
    else a

/-- `std::__partial_sort`. -/
def partialSort {α : Type} (comp : α → α → Bool) (a : List α) (first middle last : Nat) : List α :=
  sortHeap comp first (middle - first) (heapSelect comp a first middle last)

/-- `std::__introsort_loop`, by recursion on `depth_limit`, which the loop
decrements before each partition. -/
def introsortLoop {α : Type} (comp : α → α → Bool) : Nat → List α → Nat → Nat → List α
  | 0, a, first, last =>
    if last - first > 16 then partialSort comp a first last last else a
  | depthLimit + 1, a, first, last =>
    if last - first > 16 then
      let r := unguardedPartitionPivot comp a first last
      let a := introsortLoop comp depthLimit r.1 r.2 last
      introsortLoop comp depthLimit a first r.2
    else a

/-- The loop of `std::__unguarded_linear_insert` with the hole at `last`:
earlier elements greater than `val` move one place up.  The source has no
lower bound (a smaller element is known to sit before); the loop here stops at
position 0. -/
def unguardedLinearInsertLoop {α : Type} (comp : α → α → Bool) (val : α) : Nat → List α → List α
  | 0, a => a.set 0 val
  | next + 1, a =>
    match a[next]? with
    | some x =>
      if comp val x = true then
        unguardedLinearInsertLoop comp val next (a.set (next + 1) x)
      else a.set (next + 1) val
    | none => a.set (next + 1) val

/-- `std::__unguarded_linear_insert`. -/
def unguardedLinearInsert {α : Type} (comp : α → α → Bool) (a : List α) (last : Nat) : List α :=
  match a[last]? with
  | some val => unguardedLinearInsertLoop comp val last a
  | none => a

/-- One round of the `for` loop of `std::__insertion_sort`: an element less
than the first one is moved to the front (`move_backward`, then
`*first = val`), any other is inserted linearly. -/
def insertionStep {α : Type} (comp : α → α → Bool) (first : Nat) (a : List α) (i : Nat) : List α :=
  if compAt comp a i first = true then
    match a[i]? with
    | some val => a.take first ++ val :: (a.drop first).take (i - first) ++ a.drop (i + 1)
    | none => a
  else unguardedLinearInsert comp a i

/-- `std::__insertion_sort`. -/
def insertionSort {α : Type} (comp : α → α → Bool) (a : List α) (first last : Nat) : List α :=
  if first = last then a
  else (List.range' (first + 1) (last - (first + 1))).foldl (insertionStep comp first) a

/-- `std::__unguarded_insertion_sort`. -/
def unguardedInsertionSort {α : Type} (comp : α → α → Bool) (a : List α) (first last : Nat) : List α :=
  (List.range' first (last - first)).foldl (unguardedLinearInsert comp) a

/-- `std::__final_insertion_sort`, with `_S_threshold = 16`. -/
def finalInsertionSort {α : Type} (comp : α → α → Bool) (a : List α) (first last : Nat) : List α :=
  if last - first > 16 then
    unguardedInsertionSort comp (insertionSort comp a first (first + 16)) (first + 16) last
  else insertionSort comp a first last

/-- `std::sort(begin, end, comp)` on a vector: `std::__sort`. -/
def gnuSort {α : Type} (comp : α → α → Bool) (a : List α) : List α :=
  if a.length = 0 then a
  else
    finalInsertionSort comp (introsortLoop comp (Nat.log2 a.length * 2) a 0 a.length) 0 a.length

/-- The comparator `loadFromFile` passes to `std::sort`: `a.time < b.time`. -/
def timeLt (a b : BeatmapNote) : Bool := decide (a.time < b.time)

/-- The contract of `std::sort` as a test: `r` is a permutation of `l` in
which no event is earlier than one before it. -/
def meetsSortContract (r l : List BeatmapNote) : Prop :=
  r.Perm l ∧ r.Pairwise (fun a b => ¬ b.time < a.time)

instance meetsSortContract_decidable (r l : List BeatmapNote) :
    Decidable (meetsSortContract r l) := by
  unfold meetsSortContract; infer_instance

/-- The library the game is built against with g++: `std::sort` is the
algorithm of libstdc++, `gnuSort`, with the comparator of `loadFromFile`.
The structure has to carry the contract of `std::sort`, so the result passes
through a test of that contract; the theorem `gnuLib_sort` shows that the
test never fails, that is `gnuLib.sort = gnuSort timeLt`. -/
def gnuLib : StdLib where
  stof := plainStof
  stoi := plainStoi
  sort := fun l => if meetsSortContract (gnuSort timeLt l) l then gnuSort timeLt l else stableSort l
  sort_perm := fun l => by
    by_cases h : meetsSortContract (gnuSort timeLt l) l
    · simp only [h, if_true]; exact h.1
    · simp only [h, if_false]; exact List.perm_insertionSort timeLe l
  sort_sorted := fun l => by
    by_cases h : meetsSortContract (gnuSort timeLt l) l
    · simp only [h, if_true]; exact h.2
    · simp only [h, if_false]
      exact (List.sorted_insertionSort timeLe l).imp (fun h => not_lt.mpr h)

/-- Nine two-note chords, one per second, columns 0 and 1, in file order. -/
def chordEvents : List BeatmapNote :=
  [
    { time := 1, column := 0 }, { time := 1, column := 1 }, { time := 2, column := 0 },
    { time := 2, column := 1 }, { time := 3, column := 0 }, { time := 3, column := 1 },
    { time := 4, column := 0 }, { time := 4, column := 1 }, { time := 5, column := 0 },
    { time := 5, column := 1 }, { time := 6, column := 0 }, { time := 6, column := 1 },
    { time := 7, column := 0 }, { time := 7, column := 1 }, { time := 8, column := 0 },
    { time := 8, column := 1 }, { time := 9, column := 0 }, { time := 9, column := 1 } ]

/-- A beatmap file with those nine chords as its 18 data lines. -/
def fileChords : List String :=
  ["Title", "song.mp3", "0",
    "1.0,0", "1.0,1", "2.0,0", "2.0,1", "3.0,0", "3.0,1", "4.0,0", "4.0,1", "5.0,0",
    "5.0,1", "6.0,0", "6.0,1", "7.0,0", "7.0,1", "8.0,0", "8.0,1", "9.0,0", "9.0,1"]

/-! # Theorems -/

/-! ## Statistics are touched only by the judgment paths -/

theorem stats_createNote (s : Session) (c : Int) : stats (createNote s c) = stats s := rfl

theorem stats_foldl_createNote (cols : List Int) (s : Session) :
    stats (cols.foldl createNote s) = stats s := by
  induction cols generalizing s with
  | nil => rfl
  | cons c cs ih => simp only [List.foldl_cons, ih, stats_createNote]

theorem stats_generateNotePattern (s : Session) (n : Int) (r : Rng) :
    stats (generateNotePattern s n r) = stats s := by
  unfold generateNotePattern
  split_ifs <;> simp only [stats_createNote, stats_foldl_createNote]

theorem stats_updateClock (s : Session) (t : Tick) : stats (updateClock s t) = stats s := by
  unfold updateClock
  simp only
  split_ifs <;> rfl

theorem stats_afterBeatmapSpawn (s : Session) (t : Tick) :
    stats (afterBeatmapSpawn s t) = stats s := by
  unfold afterBeatmapSpawn
  simp only [stats_foldl_createNote]
  exact stats_updateClock s t

theorem stats_updateSpawn (s : Session) (t : Tick) : stats (updateSpawn s t) = stats s := by
  unfold updateSpawn
  simp only
  split_ifs
  · exact stats_afterBeatmapSpawn s t
  · exact stats_afterBeatmapSpawn s t
  · exact (stats_generateNotePattern _ _ _).trans (stats_updateClock s t)
  · exact stats_updateClock s t

theorem stats_updateJudgment (s : Session) (dt : ℚ) : stats (updateJudgment s dt) = stats s := by
  unfold updateJudgment
  simp only
  split_ifs <;> rfl

/-- The statistics after `update` are those the movement loop leaves. -/
theorem stats_update (s : Session) (t : Tick) :
    stats (update s t) = stats (moveNotes t.deltaTime (updateSpawn s t).notes (updateSpawn s t)).2 := by
  unfold update
  simp only
  exact stats_updateJudgment _ _

/-! ## The movement loop -/

theorem handleMiss_stats (s : Session) :
    stats (handleMiss s) =
      (s.score, 0, s.maxCombo, s.totalHits + 1, s.perfectHits, s.greatHits, s.goodHits,
        s.missedHits + 1) := rfl

/-- The notes the movement loop produces, before the purge. -/
theorem moveNotes_notes (dt : ℚ) (l : List Note) (s : Session) :
    (moveNotes dt l s).1 = l.map (moveNote dt) := by
  induction l generalizing s with
  | nil => rfl
  | cons n ns ih =>
    rcases n with ⟨p, c, h, m⟩
    by_cases hx : p + (NOTE_SPEED : ℚ) * dt > missThreshold <;>
      cases h <;> cases m <;>
      simp [moveNotes, moveNote, crosses, advance, Note.unresolved, ih, hx]

theorem moveNote_kept (dt : ℚ) (n : Note) :
    (!((moveNote dt n).hit || (moveNote dt n).missed)) = survives dt n := by
  rcases n with ⟨p, c, h, m⟩
  by_cases hx : p + (NOTE_SPEED : ℚ) * dt > missThreshold <;>
    cases h <;> cases m <;>
    simp [moveNote, crosses, survives, advance, Note.unresolved, hx]

theorem moveNote_of_survives (dt : ℚ) (n : Note) (h : survives dt n = true) :
    moveNote dt n = advance dt n := by
  rcases n with ⟨p, c, hh, m⟩
  by_cases hx : p + (NOTE_SPEED : ℚ) * dt > missThreshold <;>
    cases hh <;> cases m <;>
    simp_all [moveNote, crosses, survives, advance, Note.unresolved]

/-- After the purge exactly the advanced surviving notes remain. -/
theorem purge_moveNotes (dt : ℚ) (l : List Note) (s : Session) :
    purge (moveNotes dt l s).1 = (l.filter (survives dt)).map (advance dt) := by
  rw [moveNotes_notes, purge, List.filter_map]
  have h2 : ((fun note : Note => !(note.hit || note.missed)) ∘ moveNote dt) = survives dt := by
    funext n
    exact moveNote_kept dt n
  rw [h2]
  apply List.map_congr_left
  intro n hn
  exact moveNote_of_survives dt n (List.mem_filter.mp hn).2

/-- The statistics the movement loop leaves: one `handleMiss` per crossing note. -/
theorem moveNotes_stats (dt : ℚ) (l : List Note) (s : Session) :
    (moveNotes dt l s).2.score = s.score ∧
    (moveNotes dt l s).2.maxCombo = s.maxCombo ∧
    (moveNotes dt l s).2.perfectHits = s.perfectHits ∧
    (moveNotes dt l s).2.greatHits = s.greatHits ∧
    (moveNotes dt l s).2.goodHits = s.goodHits ∧
    (moveNotes dt l s).2.totalHits = s.totalHits + ((l.filter (crosses dt)).length : Int) ∧
    (moveNotes dt l s).2.missedHits = s.missedHits + ((l.filter (crosses dt)).length : Int) ∧
    (moveNotes dt l s).2.combo = (if (l.filter (crosses dt)).length = 0 then s.combo else 0) := by
  induction l generalizing s with
  | nil => simp [moveNotes]
  | cons n ns ih =>
    by_cases hc : crosses dt n = true
    · have hm : moveNotes dt (n :: ns) s = 
          ({ advance dt n with missed := true } :: (moveNotes dt ns (handleMiss s)).1,
            (moveNotes dt ns (handleMiss s)).2) := by
        simp only [crosses, Note.unresolved, Bool.and_eq_true, Bool.not_eq_true',
          decide_eq_true_eq] at hc
        have h2 := hc.2
        simp only [gt_iff_lt] at h2
        simp [moveNotes, hc.1.1, hc.1.2, h2, advance]
      obtain ⟨h1, h2, h3, h4, h5, h6, h7, h8⟩ := ih (handleMiss s)
      rw [hm, List.filter_cons_of_pos hc]
      simp only [h1, h2, h3, h4, h5, h6, h7, h8, List.length_cons]
      refine ⟨rfl, rfl, rfl, rfl, rfl, ?_, ?_, ?_⟩
      · show s.totalHits + 1 + _ = _
        push_cast; ring
      · show s.missedHits + 1 + _ = _
        push_cast; ring
      · have : (handleMiss s).combo = 0 := rfl
        simp [this]
    · have hm : (moveNotes dt (n :: ns) s).2 = (moveNotes dt ns s).2 := by
        simp only [crosses, Note.unresolved, Bool.and_eq_true, Bool.not_eq_true',
          decide_eq_true_eq, not_and] at hc
        simp only [moveNotes]
        split_ifs with ha hb
        · exact absurd hb (hc ha)
        · rfl
        · rfl
      rw [hm, List.filter_cons_of_neg hc]
      exact ih s

/-! ## The key press path -/

theorem handleKeyPress_not_started (s : Session) (C : Int) (h : s.gameStarted = false) :
    handleKeyPress s C = s := by
  simp [handleKeyPress, h]

theorem handleKeyPress_none (s : Session) (C : Int) (d : ℚ) (h : closest s C = (none, d)) :
    handleKeyPress s C = s := by
  simp [handleKeyPress, h]

theorem handleKeyPress_far (s : Session) (C : Int) (i : Nat) (d : ℚ)
    (h : closest s C = (some i, d)) (hd : (GOOD_WINDOW : ℚ) ≤ d) :
    handleKeyPress s C = s := by
  simp [handleKeyPress, h, not_lt.mpr hd]

/-- The statistics after a key press that selects a note inside the Good window. -/
theorem handleKeyPress_hit_stats (s : Session) (C : Int) (i : Nat) (d : ℚ)
    (hrun : s.gameStarted = true) (h : closest s C = (some i, d)) (hd : d < (GOOD_WINDOW : ℚ)) :
    stats (handleKeyPress s C) =
      (s.score + (if d < (PERFECT_WINDOW : ℚ) then 300 + s.combo * 5
          else if d < (GREAT_WINDOW : ℚ) then 200 + s.combo * 3 else 100 + s.combo),
        s.combo + 1,
        (if s.combo + 1 > s.maxCombo then s.combo + 1 else s.maxCombo),
        s.totalHits + 1,
        s.perfectHits + (if d < (PERFECT_WINDOW : ℚ) then 1 else 0),
        s.greatHits + (if d < (PERFECT_WINDOW : ℚ) then 0 else if d < (GREAT_WINDOW : ℚ) then 1 else 0),
        s.goodHits + (if d < (PERFECT_WINDOW : ℚ) then 0 else if d < (GREAT_WINDOW : ℚ) then 0 else 1),
        s.missedHits) := by
  simp only [handleKeyPress, h, hrun, hd, stats, showJudgment]
  by_cases h1 : d < (PERFECT_WINDOW : ℚ)
  · by_cases h3 : s.combo + 1 > s.maxCombo <;> simp [h1, h3]
  · by_cases h2 : d < (GREAT_WINDOW : ℚ) <;>
      by_cases h3 : s.combo + 1 > s.maxCombo <;> simp [h1, h2, h3]

/-- The judgment shown after a key press that selects a note inside the Good window. -/
theorem handleKeyPress_hit_judgment (s : Session) (C : Int) (i : Nat) (d : ℚ)
    (hrun : s.gameStarted = true) (h : closest s C = (some i, d)) (hd : d < (GOOD_WINDOW : ℚ)) :
    (handleKeyPress s C).currentJudgment.type =
      (if d < (PERFECT_WINDOW : ℚ) then JudgmentType.PERFECT
        else if d < (GREAT_WINDOW : ℚ) then JudgmentType.GREAT else JudgmentType.GOOD) := by
  simp only [handleKeyPress, h, hrun, hd, showJudgment]
  by_cases h1 : d < (PERFECT_WINDOW : ℚ)
  · by_cases h3 : s.combo + 1 > s.maxCombo <;> simp [h1, h3]
  · by_cases h2 : d < (GREAT_WINDOW : ℚ) <;>
      by_cases h3 : s.combo + 1 > s.maxCombo <;> simp [h1, h2, h3]

/-- The notes after a key press that selects a note inside the Good window. -/
theorem handleKeyPress_hit_notes (s : Session) (C : Int) (i : Nat) (d : ℚ)
    (hrun : s.gameStarted = true) (h : closest s C = (some i, d)) (hd : d < (GOOD_WINDOW : ℚ)) :
    (handleKeyPress s C).notes = markHit s.notes i := by
  simp only [handleKeyPress, h, hrun, hd, showJudgment]
  by_cases h1 : d < (PERFECT_WINDOW : ℚ)
  · by_cases h3 : s.combo + 1 > s.maxCombo <;> simp [h1, h3]
  · by_cases h2 : d < (GREAT_WINDOW : ℚ) <;>
      by_cases h3 : s.combo + 1 > s.maxCombo <;> simp [h1, h2, h3]

/-- What the scan loop returns: either the accumulator unchanged, no
candidate being nearer than it, or the first candidate of least distance. -/
theorem scanClosest_spec (C : Int) (l : List Note) (i : Nat) (cn : Option Nat) (cd : ℚ) :
    (scanClosest C l i cn cd = (cn, cd) ∧ ∀ m ∈ l, candidate C m → cd ≤ m.distance) ∨
    (∃ k n, l[k]? = some n ∧ scanClosest C l i cn cd = (some (i + k), n.distance) ∧
      candidate C n ∧ n.distance < cd ∧
      (∀ m ∈ l, candidate C m → n.distance ≤ m.distance) ∧
      (∀ j m, j < k → l[j]? = some m → candidate C m → n.distance < m.distance)) := by
  induction l generalizing i cn cd with
  | nil => left; simp [scanClosest]
  | cons a rest ih =>
    by_cases hc : a.column = C ∧ a.hit = false ∧ a.missed = false
    · by_cases hd : a.distance < cd
      · have hs : scanClosest C (a :: rest) i cn cd =
            scanClosest C rest (i + 1) (some i) a.distance := by
          simp [scanClosest, hc, hd]
        rw [hs]
        rcases ih (i + 1) (some i) a.distance with ⟨h1, h2⟩ | ⟨k, n, hk, h1, h2, h3, h4, h5⟩
        · right
          refine ⟨0, a, by simp, by simpa using h1, hc, hd, ?_, ?_⟩
          · intro m hm hcm
            rcases List.mem_cons.mp hm with rfl | hm
            · exact le_refl _
            · exact h2 m hm hcm
          · intro j m hj
            exact absurd hj (Nat.not_lt_zero j)
        · right
          refine ⟨k + 1, n, by simpa using hk, ?_, h2, lt_trans h3 hd, ?_, ?_⟩
          · rw [h1]
            congr 2
            omega
          · intro m hm hcm
            rcases List.mem_cons.mp hm with rfl | hm
            · exact le_of_lt h3
            · exact h4 m hm hcm
          · intro j m hj hjm hcm
            cases j with
            | zero =>
              simp only [List.getElem?_cons_zero, Option.some.injEq] at hjm
              subst hjm
              exact h3
            | succ j =>
              simp only [List.getElem?_cons_succ] at hjm
              exact h5 j m (by omega) hjm hcm
      · have hs : scanClosest C (a :: rest) i cn cd = scanClosest C rest (i + 1) cn cd := by
          simp [scanClosest, hc, hd]
        rw [hs]
        rcases ih (i + 1) cn cd with ⟨h1, h2⟩ | ⟨k, n, hk, h1, h2, h3, h4, h5⟩
        · left
          refine ⟨h1, ?_⟩
          intro m hm hcm
          rcases List.mem_cons.mp hm with rfl | hm
          · exact not_lt.mp hd
          · exact h2 m hm hcm
        · right
          refine ⟨k + 1, n, by simpa using hk, ?_, h2, h3, ?_, ?_⟩
          · rw [h1]
            congr 2
            omega
          · intro m hm hcm
            rcases List.mem_cons.mp hm with rfl | hm
            · exact le_of_lt (lt_of_lt_of_le h3 (not_lt.mp hd))
            · exact h4 m hm hcm
          · intro j m hj hjm hcm
            cases j with
            | zero =>
              simp only [List.getElem?_cons_zero, Option.some.injEq] at hjm
              subst hjm
              exact lt_of_lt_of_le h3 (not_lt.mp hd)
            | succ j =>
              simp only [List.getElem?_cons_succ] at hjm
              exact h5 j m (by omega) hjm hcm
    · have hs : scanClosest C (a :: rest) i cn cd = scanClosest C rest (i + 1) cn cd := by
        simp [scanClosest, hc]
      rw [hs]
      rcases ih (i + 1) cn cd with ⟨h1, h2⟩ | ⟨k, n, hk, h1, h2, h3, h4, h5⟩
      · left
        refine ⟨h1, ?_⟩
        intro m hm hcm
        rcases List.mem_cons.mp hm with rfl | hm
        · exact absurd hcm hc
        · exact h2 m hm hcm
      · right
        refine ⟨k + 1, n, by simpa using hk, ?_, h2, h3, ?_, ?_⟩
        · rw [h1]
          congr 2
          omega
        · intro m hm hcm
          rcases List.mem_cons.mp hm with rfl | hm
          · exact absurd hcm hc
          · exact h4 m hm hcm
        · intro j m hj hjm hcm
          cases j with
          | zero =>
            simp only [List.getElem?_cons_zero, Option.some.injEq] at hjm
            subst hjm
            exact absurd hcm hc
          | succ j =>
            simp only [List.getElem?_cons_succ] at hjm
            exact h5 j m (by omega) hjm hcm

/-- What the scan of a key press finds: nothing (no candidate nearer than
`FLT_MAX`), or the first candidate of least distance. -/
theorem closest_spec (s : Session) (C : Int) :
    (closest s C = (none, FLT_MAX) ∧ ∀ m ∈ s.notes, candidate C m → FLT_MAX ≤ m.distance) ∨
    (∃ k n, s.notes[k]? = some n ∧ closest s C = (some k, n.distance) ∧
      candidate C n ∧ n.distance < FLT_MAX ∧
      (∀ m ∈ s.notes, candidate C m → n.distance ≤ m.distance) ∧
      (∀ j m, j < k → s.notes[j]? = some m → candidate C m → n.distance < m.distance)) := by
  rcases scanClosest_spec C s.notes 0 none FLT_MAX with h | ⟨k, n, hk, h1, h2⟩
  · exact Or.inl h
  · exact Or.inr ⟨k, n, hk, by simpa [closest] using h1, h2⟩

theorem handleKeyPress_cases (s : Session) (C : Int) :
    handleKeyPress s C = s ∨
    ∃ i d, s.gameStarted = true ∧ closest s C = (some i, d) ∧ d < (GOOD_WINDOW : ℚ) := by
  by_cases hrun : s.gameStarted = true
  · obtain ⟨o, d, hc⟩ : ∃ o d, closest s C = (o, d) := ⟨_, _, rfl⟩
    cases o with
    | none => exact Or.inl (handleKeyPress_none s C d hc)
    | some i =>
      by_cases hd : d < (GOOD_WINDOW : ℚ)
      · exact Or.inr ⟨i, d, hrun, hc, hd⟩
      · exact Or.inl (handleKeyPress_far s C i d hc (not_lt.mp hd))
  · exact Or.inl (handleKeyPress_not_started s C (by simpa using hrun))

theorem hitsBalanced_handleKeyPress (s : Session) (C : Int) (h : hitsBalanced s) :
    hitsBalanced (handleKeyPress s C) := by
  rcases handleKeyPress_cases s C with he | ⟨i, d, hrun, hc, hd⟩
  · rw [he]; exact h
  · have hs := handleKeyPress_hit_stats s C i d hrun hc hd
    simp only [stats, Prod.mk.injEq] at hs
    obtain ⟨-, -, -, h4, h5, h6, h7, h8⟩ := hs
    unfold hitsBalanced at h ⊢
    rw [h4, h5, h6, h7, h8, h]
    split_ifs <;> ring

theorem hitsBalanced_handleMiss (s : Session) (h : hitsBalanced s) :
    hitsBalanced (handleMiss s) := by
  unfold hitsBalanced at h ⊢
  show s.totalHits + 1 = s.perfectHits + s.greatHits + s.goodHits + (s.missedHits + 1)
  rw [h]; ring

theorem hitsBalanced_update (s : Session) (t : Tick) (h : hitsBalanced s) :
    hitsBalanced (update s t) := by
  have h1 := stats_update s t
  have h2 := stats_updateSpawn s t
  obtain ⟨-, -, m3, m4, m5, m6, m7, -⟩ :=
    moveNotes_stats t.deltaTime (updateSpawn s t).notes (updateSpawn s t)
  simp only [stats, Prod.mk.injEq] at h1 h2
  unfold hitsBalanced at h ⊢
  rw [h1.2.2.2.1, h1.2.2.2.2.1, h1.2.2.2.2.2.1, h1.2.2.2.2.2.2.1, h1.2.2.2.2.2.2.2,
    m3, m4, m5, m6, m7, h2.2.2.2.1, h2.2.2.2.2.1, h2.2.2.2.2.2.1, h2.2.2.2.2.2.2.1,
    h2.2.2.2.2.2.2.2, h]
  ring

/-- C1: in every session reachable from a freshly constructed or reset one by
key presses, auto-misses and ticks, `totalHits` equals
`perfectHits + greatHits + goodHits + missedHits`. -/
theorem totalHits_eq_sum_of_reachable (s : Session) (h : Reachable s) :
    s.totalHits = s.perfectHits + s.greatHits + s.goodHits + s.missedHits := by
  induction h with
  | fresh => rfl
  | reset s interval => rfl
  | keyPress s C _ ih => exact hitsBalanced_handleKeyPress s C ih
  | miss s _ ih => exact hitsBalanced_handleMiss s ih
  | tick s t _ ih => exact hitsBalanced_update s t ih

theorem totalHits_eq_sum_of_reachable_witness :
    Reachable (update (handleMiss (resetStats sessionCombo10 (1 / 2))) tick16) ∧
    (update (handleMiss (resetStats sessionCombo10 (1 / 2))) tick16).totalHits =
      (update (handleMiss (resetStats sessionCombo10 (1 / 2))) tick16).perfectHits +
      (update (handleMiss (resetStats sessionCombo10 (1 / 2))) tick16).greatHits +
      (update (handleMiss (resetStats sessionCombo10 (1 / 2))) tick16).goodHits +
      (update (handleMiss (resetStats sessionCombo10 (1 / 2))) tick16).missedHits :=
  ⟨Reachable.tick _ _ (Reachable.miss _ (Reachable.reset _ _)),
    totalHits_eq_sum_of_reachable _
      (Reachable.tick _ _ (Reachable.miss _ (Reachable.reset _ _)))⟩

theorem closest_sessionCombo10 : closest sessionCombo10 1 = (some 0, 5) := by
  norm_num [closest, sessionCombo10, scanClosest, Note.distance, JUDGMENT_LINE_Y, FLT_MAX]

/-- C2: a key press on a running session with combo `c` that selects a note
at distance `d` adds `300 + 5c` (d < 20), `200 + 3c` (20 ≤ d < 50) or
`100 + c` (50 ≤ d < 100) to the score and 1 to the matching tier counter, and
in all three cases makes combo `c + 1`, adds 1 to `totalHits` and makes
`maxCombo` the maximum of its old value and `c + 1`. -/
theorem handleKeyPress_score_and_combo (s : Session) (C : Int) (i : Nat) (d : ℚ)
    (hrun : s.gameStarted = true) (hsel : closest s C = (some i, d)) (hd : d < 100) :
    (d < 20 → (handleKeyPress s C).score = s.score + (300 + 5 * s.combo) ∧
        (handleKeyPress s C).perfectHits = s.perfectHits + 1) ∧
    (20 ≤ d → d < 50 → (handleKeyPress s C).score = s.score + (200 + 3 * s.combo) ∧
        (handleKeyPress s C).greatHits = s.greatHits + 1) ∧
    (50 ≤ d → (handleKeyPress s C).score = s.score + (100 + s.combo) ∧
        (handleKeyPress s C).goodHits = s.goodHits + 1) ∧
    (handleKeyPress s C).combo = s.combo + 1 ∧
    (handleKeyPress s C).totalHits = s.totalHits + 1 ∧
    (handleKeyPress s C).maxCombo = max s.maxCombo (s.combo + 1) := by
  have hs := handleKeyPress_hit_stats s C i d hrun hsel (by simpa [GOOD_WINDOW] using hd)
  simp only [stats, Prod.mk.injEq, PERFECT_WINDOW, GREAT_WINDOW, Int.cast_ofNat] at hs
  obtain ⟨h1, h2, h3, h4, h5, h6, h7, -⟩ := hs
  refine ⟨?_, ?_, ?_, h2, h4, ?_⟩
  · intro hp
    rw [h1, h5]
    simp only [hp, if_true]
    exact ⟨by ring, trivial⟩
  · intro hp hg
    rw [h1, h6]
    simp only [not_lt.mpr hp, hg, if_true, if_false]
    exact ⟨by ring, trivial⟩
  · intro hg
    have hp : ¬ d < 20 := not_lt.mpr (le_trans (by norm_num) hg)
    rw [h1, h7]
    simp only [hp, not_lt.mpr hg, if_false]
    exact ⟨trivial, trivial⟩
  · rw [h3]
    split_ifs with hc
    · exact (max_eq_right (le_of_lt hc)).symm
    · exact (max_eq_left (not_lt.mp hc)).symm

theorem handleKeyPress_score_and_combo_witness :
    (handleKeyPress sessionCombo10 1).score = sessionCombo10.score + 350 ∧
    (handleKeyPress sessionCombo10 1).combo = 11 :=
  have h := handleKeyPress_score_and_combo sessionCombo10 1 0 5 rfl closest_sessionCombo10
    (by norm_num)
  ⟨(h.1 (by norm_num)).1, h.2.2.2.1⟩

theorem markHit_length (l : List Note) (i : Nat) : (markHit l i).length = l.length := by
  simp [markHit]

theorem markHit_getElem?_self (l : List Note) (k : Nat) (n : Note) (h : l[k]? = some n) :
    (markHit l k)[k]? = some { n with hit := true } := by
  simp [markHit, List.getElem?_modify, h]

theorem markHit_getElem?_ne (l : List Note) (k j : Nat) (h : j ≠ k) :
    (markHit l k)[j]? = l[j]? := by
  have h2 : ¬ k = j := fun e => h e.symm
  simp [markHit, List.getElem?_modify, h2]

/-- C3: a key press in column `C` either leaves the session as it is, or
marks exactly one note Hit: an unresolved note of column `C` whose distance
from the judgment line is least among the unresolved notes of column `C` and
strictly less than that of every such note before it in the collection; all
other notes, in any column, keep their value. -/
theorem handleKeyPress_resolves_nearest (s : Session) (C : Int) :
    handleKeyPress s C = s ∨
    ∃ (k : Nat) (n : Note), s.notes[k]? = some n ∧
      n.column = C ∧ n.hit = false ∧ n.missed = false ∧
      (∀ m ∈ s.notes, m.column = C → m.hit = false → m.missed = false →
        n.distance ≤ m.distance) ∧
      (∀ (j : Nat) (m : Note), j < k → s.notes[j]? = some m →
        m.column = C → m.hit = false → m.missed = false →
        n.distance < m.distance) ∧
      (handleKeyPress s C).notes.length = s.notes.length ∧
      (handleKeyPress s C).notes[k]? = some { n with hit := true } ∧
      (∀ j, j ≠ k → (handleKeyPress s C).notes[j]? = s.notes[j]?) := by
  rcases handleKeyPress_cases s C with he | ⟨i, d, hrun, hc, hd⟩
  · exact Or.inl he
  · right
    rcases closest_spec s C with ⟨h0, -⟩ | ⟨k, n, hk, h1, h2, -, h4, h5⟩
    · rw [hc] at h0
      simp at h0
    · rw [hc] at h1
      simp only [Prod.mk.injEq, Option.some.injEq] at h1
      obtain ⟨rfl, rfl⟩ := h1
      have hn := handleKeyPress_hit_notes s C i n.distance hrun hc hd
      refine ⟨i, n, hk, h2.1, h2.2.1, h2.2.2, ?_, ?_, ?_, ?_, ?_⟩
      · intro m hm a b c
        exact h4 m hm ⟨a, b, c⟩
      · intro j m hj hjm a b c
        exact h5 j m hj hjm ⟨a, b, c⟩
      · rw [hn, markHit_length]
      · rw [hn]; exact markHit_getElem?_self _ _ _ hk
      · intro j hj
        rw [hn]; exact markHit_getElem?_ne _ _ _ hj

/-- C4: the windows are tested with strict `<`.  On a running session a
press whose selected note is at distance exactly 20 is judged Great (not
Perfect), at distance exactly 50 it is judged Good (not Great), and at
distance exactly 100 it changes nothing. -/
theorem handleKeyPress_window_boundaries (s : Session) (C : Int) (i : Nat)
    (hrun : s.gameStarted = true) :
    (closest s C = (some i, 20) →
      (handleKeyPress s C).currentJudgment.type = JudgmentType.GREAT ∧
      (handleKeyPress s C).greatHits = s.greatHits + 1 ∧
      (handleKeyPress s C).perfectHits = s.perfectHits ∧
      (handleKeyPress s C).score = s.score + (200 + s.combo * 3)) ∧
    (closest s C = (some i, 50) →
      (handleKeyPress s C).currentJudgment.type = JudgmentType.GOOD ∧
      (handleKeyPress s C).goodHits = s.goodHits + 1 ∧
      (handleKeyPress s C).greatHits = s.greatHits ∧
      (handleKeyPress s C).score = s.score + (100 + s.combo)) ∧
    (closest s C = (some i, 100) → handleKeyPress s C = s) := by
  refine ⟨?_, ?_, ?_⟩
  · intro hc
    have hd : (20 : ℚ) < (GOOD_WINDOW : ℚ) := by norm_num [GOOD_WINDOW]
    have hs := handleKeyPress_hit_stats s C i 20 hrun hc hd
    have hj := handleKeyPress_hit_judgment s C i 20 hrun hc hd
    simp only [stats, Prod.mk.injEq] at hs
    obtain ⟨h1, -, -, -, h5, h6, -, -⟩ := hs
    rw [hj, h1, h5, h6]
    norm_num [PERFECT_WINDOW, GREAT_WINDOW]
  · intro hc
    have hd : (50 : ℚ) < (GOOD_WINDOW : ℚ) := by norm_num [GOOD_WINDOW]
    have hs := handleKeyPress_hit_stats s C i 50 hrun hc hd
    have hj := handleKeyPress_hit_judgment s C i 50 hrun hc hd
    simp only [stats, Prod.mk.injEq] at hs
    obtain ⟨h1, -, -, -, -, h6, h7, -⟩ := hs
    rw [hj, h1, h6, h7]
    norm_num [PERFECT_WINDOW, GREAT_WINDOW]
  · intro hc
    exact handleKeyPress_far s C i 100 hc (by norm_num [GOOD_WINDOW])

theorem closest_sessionNoteAt_520 : closest (sessionNoteAt 520) 1 = (some 0, 20) := by
  norm_num [closest, sessionNoteAt, scanClosest, Note.distance, JUDGMENT_LINE_Y, FLT_MAX]

theorem handleKeyPress_window_boundaries_witness :
    (handleKeyPress (sessionNoteAt 520) 1).currentJudgment.type = JudgmentType.GREAT ∧
    (handleKeyPress (sessionNoteAt 520) 1).greatHits = (sessionNoteAt 520).greatHits + 1 ∧
    (handleKeyPress (sessionNoteAt 520) 1).perfectHits = (sessionNoteAt 520).perfectHits ∧
    (handleKeyPress (sessionNoteAt 520) 1).score =
      (sessionNoteAt 520).score + (200 + (sessionNoteAt 520).combo * 3) :=
  (handleKeyPress_window_boundaries (sessionNoteAt 520) 1 0 rfl).1 closest_sessionNoteAt_520

/-- C5: a key press in column `C` changes nothing in the session (statistics,
notes, judgment, everything) when no unresolved note is in column `C`, or
every unresolved note of column `C` is at distance 100 or more, or the
session is not running. -/
theorem handleKeyPress_no_effect (s : Session) (C : Int)
    (h : (∀ m ∈ s.notes, ¬ (m.column = C ∧ m.hit = false ∧ m.missed = false)) ∨
      (∀ m ∈ s.notes, m.column = C → m.hit = false → m.missed = false → 100 ≤ m.distance) ∨
      s.gameStarted = false) :
    handleKeyPress s C = s := by
  have key : (∀ m ∈ s.notes, candidate C m → 100 ≤ m.distance) → handleKeyPress s C = s := by
    intro hall
    rcases closest_spec s C with ⟨h0, -⟩ | ⟨k, n, hk, h1, h2, -, -, -⟩
    · exact handleKeyPress_none s C _ h0
    · have hmem : n ∈ s.notes := List.getElem?_mem hk
      exact handleKeyPress_far s C k _ h1 (by simpa [GOOD_WINDOW] using hall n hmem h2)
  rcases h with h | h | h
  · exact key (fun m hm hc => absurd hc (h m hm))
  · exact key (fun m hm hc => h m hm hc.1 hc.2.1 hc.2.2)
  · exact handleKeyPress_not_started s C h

theorem handleKeyPress_no_effect_witness :
    handleKeyPress (sessionNoteAt 350) 1 = sessionNoteAt 350 :=
  handleKeyPress_no_effect (sessionNoteAt 350) 1
    (Or.inr (Or.inl (by
      intro m hm _ _ _
      simp only [sessionNoteAt, List.mem_singleton] at hm
      subst hm
      norm_num [Note.distance, JUDGMENT_LINE_Y])))

/-! ## Ticks -/

theorem update_notes (s : Session) (t : Tick) :
    (update s t).notes =
      ((updateSpawn s t).notes.filter (survives t.deltaTime)).map (advance t.deltaTime) := by
  have h : (update s t).notes =
      purge (moveNotes t.deltaTime (updateSpawn s t).notes (updateSpawn s t)).1 := by
    unfold update updateJudgment
    simp only
    split_ifs <;> rfl
  rw [h, purge_moveNotes]

theorem update_maxCombo (s : Session) (t : Tick) :
    (update s t).maxCombo = s.maxCombo := by
  have h1 := stats_update s t
  have h2 := stats_updateSpawn s t
  obtain ⟨-, m2, -⟩ := moveNotes_stats t.deltaTime (updateSpawn s t).notes (updateSpawn s t)
  simp only [stats, Prod.mk.injEq] at h1 h2
  rw [h1.2.2.1, m2, h2.2.2.1]

/-- C6: in a tick, every unresolved note that is past the miss threshold
(500 + 40) once advanced triggers `handleMiss` exactly once: `missedHits` and
`totalHits` grow by the number of such notes, score and maxCombo keep their
value, combo is 0 if there is such a note; the notes that remain after the
tick are exactly the advanced notes that did not cross, so a missed note is
gone from the collection in the same tick and no later key press or tick can
act on it.  Each single miss sets combo to 0, adds 1 to `missedHits` and to
`totalHits`, and leaves score and maxCombo alone. -/
theorem update_miss_exactly_once (s : Session) (t : Tick) :
    missThreshold = 540 ∧
    (update s t).missedHits =
      s.missedHits + (((updateSpawn s t).notes.filter (crosses t.deltaTime)).length : Int) ∧
    (update s t).totalHits =
      s.totalHits + (((updateSpawn s t).notes.filter (crosses t.deltaTime)).length : Int) ∧
    (update s t).score = s.score ∧
    (update s t).maxCombo = s.maxCombo ∧
    (0 < ((updateSpawn s t).notes.filter (crosses t.deltaTime)).length → (update s t).combo = 0) ∧
    (update s t).notes =
      ((updateSpawn s t).notes.filter (survives t.deltaTime)).map (advance t.deltaTime) ∧
    (∀ n ∈ (update s t).notes, n.hit = false ∧ n.missed = false ∧ n.position ≤ missThreshold) ∧
    (∀ s0 : Session, (handleMiss s0).combo = 0 ∧ (handleMiss s0).missedHits = s0.missedHits + 1 ∧
      (handleMiss s0).totalHits = s0.totalHits + 1 ∧ (handleMiss s0).score = s0.score ∧
      (handleMiss s0).maxCombo = s0.maxCombo ∧ (handleMiss s0).notes = s0.notes) := by
  have h1 := stats_update s t
  have h2 := stats_updateSpawn s t
  obtain ⟨m1, m2, -, -, -, m6, m7, m8⟩ :=
    moveNotes_stats t.deltaTime (updateSpawn s t).notes (updateSpawn s t)
  simp only [stats, Prod.mk.injEq] at h1 h2
  refine ⟨by norm_num [missThreshold, JUDGMENT_LINE_Y, NOTE_HEIGHT], ?_, ?_, ?_, ?_, ?_,
    update_notes s t, ?_, fun s0 => ⟨rfl, rfl, rfl, rfl, rfl, rfl⟩⟩
  · rw [h1.2.2.2.2.2.2.2, m7, h2.2.2.2.2.2.2.2]
  · rw [h1.2.2.2.1, m6, h2.2.2.2.1]
  · rw [h1.1, m1, h2.1]
  · rw [h1.2.2.1, m2, h2.2.2.1]
  · intro hpos
    rw [h1.2.1, m8, if_neg (Nat.pos_iff_ne_zero.mp hpos)]
  · intro n hn
    rw [update_notes, List.mem_map] at hn
    obtain ⟨m, hm, rfl⟩ := hn
    have hs := (List.mem_filter.mp hm).2
    simp only [survives, Note.unresolved, Bool.and_eq_true, Bool.not_eq_true',
      decide_eq_false_iff_not, not_lt] at hs
    exact ⟨hs.1.1, hs.1.2, hs.2⟩

/-- The combo invariant: `maxCombo` is non-negative and bounds `combo`. -/
theorem combo_inv_of_reachable (s : Session) (h : Reachable s) :
    0 ≤ s.maxCombo ∧ s.combo ≤ s.maxCombo := by
  induction h with
  | fresh => exact ⟨le_refl _, le_refl _⟩
  | reset s interval => exact ⟨le_refl _, le_refl _⟩
  | keyPress s C _ ih =>
    rcases handleKeyPress_cases s C with he | ⟨i, d, hrun, hc, hd⟩
    · rw [he]; exact ih
    · have hs := handleKeyPress_hit_stats s C i d hrun hc hd
      simp only [stats, Prod.mk.injEq] at hs
      obtain ⟨-, h2, h3, -⟩ := hs
      rw [h2, h3]
      split_ifs with hgt
      · exact ⟨by omega, le_refl _⟩
      · exact ⟨ih.1, not_lt.mp hgt⟩
  | miss s _ ih => exact ⟨ih.1, ih.1⟩
  | tick s t _ ih =>
    have h1 := stats_update s t
    have h2 := stats_updateSpawn s t
    obtain ⟨-, m2, -, -, -, -, -, m8⟩ :=
      moveNotes_stats t.deltaTime (updateSpawn s t).notes (updateSpawn s t)
    simp only [stats, Prod.mk.injEq] at h1 h2
    rw [h1.2.1, h1.2.2.1, m2, m8, h2.2.1, h2.2.2.1]
    split_ifs
    · exact ih
    · exact ⟨ih.1, ih.1⟩

/-- C7: in every session reachable from a fresh or reset one, `combo` is at
most `maxCombo`; and no key press, auto-miss or tick lowers `maxCombo`. -/
theorem combo_le_maxCombo_of_reachable (s : Session) (h : Reachable s) :
    s.combo ≤ s.maxCombo ∧
    (∀ C : Int, s.maxCombo ≤ (handleKeyPress s C).maxCombo) ∧
    s.maxCombo ≤ (handleMiss s).maxCombo ∧
    (∀ t : Tick, s.maxCombo ≤ (update s t).maxCombo) := by
  refine ⟨(combo_inv_of_reachable s h).2, ?_, le_refl _, ?_⟩
  · intro C
    rcases handleKeyPress_cases s C with he | ⟨i, d, hrun, hc, hd⟩
    · rw [he]
    · have hs := handleKeyPress_hit_stats s C i d hrun hc hd
      simp only [stats, Prod.mk.injEq] at hs
      rw [hs.2.2.1]
      split_ifs with hgt
      · exact le_of_lt hgt
      · exact le_refl _
  · intro t
    exact le_of_eq (update_maxCombo s t).symm

theorem combo_le_maxCombo_of_reachable_witness :
    Reachable (handleMiss Session.new) ∧
    (handleMiss Session.new).combo ≤ (handleMiss Session.new).maxCombo ∧
    (handleMiss Session.new).maxCombo ≤ (handleKeyPress (handleMiss Session.new) 1).maxCombo ∧
    (handleMiss Session.new).maxCombo ≤ (handleMiss (handleMiss Session.new)).maxCombo ∧
    (handleMiss Session.new).maxCombo ≤ (update (handleMiss Session.new) tick16).maxCombo :=
  have h := combo_le_maxCombo_of_reachable (handleMiss Session.new)
    (Reachable.miss _ Reachable.fresh)
  ⟨Reachable.miss _ Reachable.fresh, h.1, h.2.1 1, h.2.2.1, h.2.2.2 tick16⟩

/-! ## End of song -/

theorem foldl_createNote_eq (cols : List Int) (s : Session) :
    cols.foldl createNote s = { s with notes := s.notes ++ cols.map newNote } := by
  induction cols generalizing s with
  | nil => simp
  | cons c cs ih => simp [List.foldl_cons, ih, createNote, newNote]

theorem flags_foldl_createNote (cols : List Int) (s : Session) :
    flags (cols.foldl createNote s) = flags s := by
  rw [foldl_createNote_eq]; rfl

theorem flags_generateNotePattern (s : Session) (n : Int) (r : Rng) :
    flags (generateNotePattern s n r) = flags s := by
  unfold generateNotePattern
  split_ifs <;> first | rfl | exact flags_foldl_createNote _ _

theorem flags_updateClock (s : Session) (t : Tick) : flags (updateClock s t) = flags s := by
  unfold updateClock
  simp only
  split_ifs <;> rfl

theorem flags_afterBeatmapSpawn (s : Session) (t : Tick) :
    flags (afterBeatmapSpawn s t) = flags s := by
  unfold afterBeatmapSpawn
  simp only [flags_foldl_createNote]
  exact flags_updateClock s t

theorem flags_moveNotes (dt : ℚ) (l : List Note) (s : Session) :
    flags (moveNotes dt l s).2 = flags s := by
  induction l generalizing s with
  | nil => rfl
  | cons n ns ih =>
    simp only [moveNotes]
    split_ifs
    · exact (ih (handleMiss s)).trans rfl
    · exact ih s
    · exact ih s

theorem flags_updateJudgment (s : Session) (dt : ℚ) : flags (updateJudgment s dt) = flags s := by
  unfold updateJudgment
  simp only
  split_ifs <;> rfl

theorem flags_update (s : Session) (t : Tick) : flags (update s t) = flags (updateSpawn s t) := by
  unfold update
  simp only
  exact (flags_updateJudgment _ _).trans (flags_moveNotes _ _ _)

/-- The flags after the spawn phase of a tick. -/
theorem flags_updateSpawn (s : Session) (t : Tick) :
    flags (updateSpawn s t) =
      if s.useRandomNotes = false ∧ endOfSong (afterBeatmapSpawn s t) = true then (false, true)
      else flags s := by
  unfold updateSpawn
  simp only
  by_cases hr : s.useRandomNotes = false
  · by_cases he : endOfSong (afterBeatmapSpawn s t) = true
    · simp [hr, he, flags]
    · simp only [hr, he, if_true, if_false, and_false]
      exact flags_afterBeatmapSpawn s t
  · rw [if_neg hr, if_neg (show ¬ (s.useRandomNotes = false ∧
        endOfSong (afterBeatmapSpawn s t) = true) from fun h => hr h.1)]
    split_ifs
    · exact (flags_generateNotePattern _ _ _).trans (flags_updateClock s t)
    · exact flags_updateClock s t

/-- The end-of-song test of a tick, in terms of the session before the tick. -/
theorem endOfSong_afterBeatmapSpawn (s : Session) (t : Tick) :
    endOfSong (afterBeatmapSpawn s t) = true ↔
      (drainNotes (s.gameTime + t.deltaTime - s.currentBeatmap.offset) s.currentBeatmap.notes).2 = [] ∧
      (s.notes = [] ∧
        (drainNotes (s.gameTime + t.deltaTime - s.currentBeatmap.offset) s.currentBeatmap.notes).1 = []) ∧
      s.gameTime + t.deltaTime > s.currentBeatmap.songLength + s.currentBeatmap.offset ∧
      (s.musicPlaying = false ∨ t.mixPlayingMusic = false) := by
  unfold afterBeatmapSpawn
  rw [foldl_createNote_eq]
  by_cases hm : s.musicPlaying = true ∧ t.mixPlayingMusic = false
  · simp only [endOfSong, updateClock, hm, Beatmap.getNotesAtTime, Beatmap.hasMoreNotes,
      List.isEmpty_iff]
    simp
    tauto
  · simp only [endOfSong, updateClock, hm, Beatmap.getNotesAtTime, Beatmap.hasMoreNotes,
      List.isEmpty_iff, if_false]
    have : (s.musicPlaying = false ∨ t.mixPlayingMusic = false) ↔ s.musicPlaying = false := by
      constructor
      · rintro (h | h)
        · exact h
        · by_contra hc
          exact hm ⟨by simpa using hc, h⟩
      · exact Or.inl
    simp [this]
    tauto

/-- C9: a tick on a session that is not already Ended leaves it Ended
(`gameStarted = false`, `gameEnded = true`) exactly when the session is in
beatmap mode and, in that tick, no events stay pending after the drain, the
note collection is empty (none in flight, none spawned), the advanced game
time is greater than `songLength + offset`, and the music is not playing.
In procedural mode a tick never changes either flag. -/
theorem update_ends_iff (s : Session) (t : Tick)
    (hne : ¬ (s.gameStarted = false ∧ s.gameEnded = true)) :
    (((update s t).gameStarted = false ∧ (update s t).gameEnded = true) ↔
      (s.useRandomNotes = false ∧
        (drainNotes (s.gameTime + t.deltaTime - s.currentBeatmap.offset)
          s.currentBeatmap.notes).2 = [] ∧
        (s.notes = [] ∧
          (drainNotes (s.gameTime + t.deltaTime - s.currentBeatmap.offset)
            s.currentBeatmap.notes).1 = []) ∧
        s.gameTime + t.deltaTime > s.currentBeatmap.songLength + s.currentBeatmap.offset ∧
        (s.musicPlaying = false ∨ t.mixPlayingMusic = false))) ∧
    (s.useRandomNotes = true →
      (update s t).gameStarted = s.gameStarted ∧ (update s t).gameEnded = s.gameEnded) := by
  have hf : flags (update s t) =
      if s.useRandomNotes = false ∧ endOfSong (afterBeatmapSpawn s t) = true then (false, true)
      else flags s := (flags_update s t).trans (flags_updateSpawn s t)
  simp only [flags] at hf
  rw [← endOfSong_afterBeatmapSpawn]
  constructor
  · constructor
    · rintro ⟨h1, h2⟩
      by_contra hc
      rw [if_neg hc, Prod.mk.injEq] at hf
      exact hne ⟨hf.1 ▸ h1, hf.2 ▸ h2⟩
    · intro hc
      rw [if_pos hc, Prod.mk.injEq] at hf
      exact hf
  · intro hr
    have hc : ¬ (s.useRandomNotes = false ∧ endOfSong (afterBeatmapSpawn s t) = true) := by
      simp [hr]
    rw [if_neg hc, Prod.mk.injEq] at hf
    exact hf

theorem update_ends_iff_witness :
    (update sessionSongOver tick16).gameStarted = false ∧
    (update sessionSongOver tick16).gameEnded = true :=
  (update_ends_iff sessionSongOver tick16 (by simp [sessionSongOver])).1.mpr
    ⟨rfl, by simp [sessionSongOver, Beatmap.new, drainNotes],
      ⟨by simp [sessionSongOver, Session.new], by simp [sessionSongOver, Beatmap.new, drainNotes]⟩,
      by norm_num [sessionSongOver, Beatmap.new, tick16],
      Or.inl (by simp [sessionSongOver, Session.new])⟩

/-! ## Beatmap-driven spawning -/

/-- An event that song time has passed by 0.01 s or more is never emitted:
the drain skips it and keeps it pending. -/
theorem drainNotes_stale (e : BeatmapNote) (τ : ℚ) (h : e.time + 1 / 100 ≤ τ) :
    drainNotes τ [e] = ([], [e]) := by
  have h1 : ¬ |e.time - τ| < 1 / 100 := by
    rw [abs_lt]
    intro hc
    linarith [hc.1]
  have h2 : ¬ e.time > τ := by
    intro hc
    linarith
  simp only [drainNotes]
  rw [if_neg h1, if_neg h2]

/-- A tick that takes song time to 2.01 s or later leaves the single-event
session as it is, apart from the clock. -/
theorem update_sessionSingleEvent_stale (g : ℚ) (h : 2 + 1 / 100 ≤ g + 40 / 1000) :
    update (sessionSingleEvent g) tick40 = sessionSingleEvent (g + 40 / 1000) := by
  have hd : drainNotes (g + 40 / 1000) [({ time := 2, column := 1 } : BeatmapNote)] =
      ([], [{ time := 2, column := 1 }]) := drainNotes_stale _ _ h
  have e1 : updateSpawn (sessionSingleEvent g) tick40 = sessionSingleEvent (g + 40 / 1000) := by
    simp [updateSpawn, afterBeatmapSpawn, updateClock, sessionSingleEvent, tick40,
      Session.new, Beatmap.new, Beatmap.getNotesAtTime, endOfSong, Beatmap.hasMoreNotes, hd]
  unfold update
  rw [e1]
  simp [moveNotes, updateJudgment, purge, sessionSingleEvent, Session.new]

/-- C8 (evaluation at the failing input): with the single event `2.0,1`,
offset 0 and game time 1.98 s, a 40 ms tick takes song time to 2.02 s; no
note is spawned in that tick, none in the next one (2.06 s), and the event
is still pending afterwards. -/
theorem update_steps_over_event :
    (update (sessionSingleEvent (198 / 100)) tick40).gameTime = 202 / 100 ∧
    (update (sessionSingleEvent (198 / 100)) tick40).notes = [] ∧
    (update (sessionSingleEvent (198 / 100)) tick40).currentBeatmap.notes =
      [{ time := 2, column := 1 }] ∧
    (update (update (sessionSingleEvent (198 / 100)) tick40) tick40).notes = [] ∧
    (update (update (sessionSingleEvent (198 / 100)) tick40) tick40).currentBeatmap.notes =
      [{ time := 2, column := 1 }] := by
  rw [update_sessionSingleEvent_stale _ (by norm_num),
    update_sessionSingleEvent_stale _ (by norm_num)]
  refine ⟨?_, rfl, rfl, rfl, rfl⟩
  show (198 / 100 + 40 / 1000 : ℚ) = 202 / 100
  norm_num

/-! ## Beatmap loading -/

theorem readHeader_rest (L : StdLib) (b : Beatmap) (lines : List String) :
    (readHeader L b lines).2 = lines.drop 3 := by
  rcases lines with _ | ⟨l1, _ | ⟨l2, _ | ⟨l3, r⟩⟩⟩ <;> rfl

theorem readHeader_notes (L : StdLib) (b : Beatmap) (lines : List String) :
    (readHeader L b lines).1.notes = b.notes := by
  rcases lines with _ | ⟨l1, _ | ⟨l2, _ | ⟨l3, r⟩⟩⟩ <;> rfl

/-- The parse loop appends the events of the valid lines, in order. -/
theorem parseLines_notes (L : StdLib) (lines : List String) (notes : List BeatmapNote)
    (len : ℚ) :
    (parseLines L lines notes len).1 = notes ++ lines.filterMap (validEvent L) := by
  induction lines generalizing notes len with
  | nil => simp [parseLines]
  | cons line rest ih =>
    unfold parseLines
    by_cases hs : isSkipped line = true
    · simp [hs, ih, validEvent, List.filterMap_cons]
    · simp only [hs, if_false, List.filterMap_cons, validEvent]
      cases hsp : splitLine line with
      | none => simp [ih]
      | some p =>
        obtain ⟨timeStr, columnStr⟩ := p
        cases ht : L.stof timeStr with
        | none => simp [ht, ih]
        | some time =>
          cases hc : L.stoi columnStr with
          | none => simp [ht, hc, ih]
          | some column =>
            by_cases hr : column ≥ 0 ∧ column < COLUMN_COUNT
            · have hr2 : 0 ≤ column ∧ column < 4 := hr
              simp [ht, hc, hr, hr2, ih]
            · have hr2 : ¬ (0 ≤ column ∧ column < 4) := hr
              simp [ht, hc, hr, hr2, ih]

/-- The events stored by a load are the sorted valid events of the file. -/
theorem loadFromFile_notes (L : StdLib) (b : Beatmap) (lines : List String) :
    (loadFromFile L b (some lines)).2.notes = L.sort (validEvents L lines) := by
  simp [loadFromFile, parseLines_notes, readHeader_rest, readHeader_notes, validEvents]

/-- C10: for a file that opens, the events stored by `loadFromFile` are in
non-decreasing order of time and are a permutation of the events of the
file's valid data lines (lines after the three header lines that are not
blank or comments, read as `time,column`, with column in `[0, 4)`). -/
theorem loadFromFile_sorted_perm (L : StdLib) (b : Beatmap) (lines : List String) :
    ((loadFromFile L b (some lines)).2.notes).Pairwise (fun x y => x.time ≤ y.time) ∧
    ((loadFromFile L b (some lines)).2.notes).Perm (validEvents L lines) := by
  rw [loadFromFile_notes]
  refine ⟨?_, L.sort_perm _⟩
  exact (L.sort_sorted _).imp (fun h => not_lt.mp h)

/-! ## Draining a sorted pending sequence -/

theorem drainNotes_sorted (t : ℚ) (l : List BeatmapNote)
    (h : l.Pairwise (fun a b => a.time ≤ b.time)) :
    (drainNotes t l).1 = (l.filter (inWindow t)).map (fun e => e.column) ∧
    (drainNotes t l).2 = l.filter (fun e => !inWindow t e) := by
  induction l with
  | nil => simp [drainNotes]
  | cons e rest ih =>
    obtain ⟨h1, h2⟩ := List.pairwise_cons.mp h
    obtain ⟨i1, i2⟩ := ih h2
    by_cases hw : |e.time - t| < 100⁻¹
    · have hi : inWindow t e = true := by simp [inWindow, hw]
      simp [drainNotes, hw, hi, i1, i2]
    · have hi : inWindow t e = false := by simp [inWindow, hw]
      by_cases hg : e.time > t
      · have hfar : ∀ x ∈ rest, inWindow t x = false := by
          intro x hx
          have hle := h1 x hx
          have habs : 100⁻¹ ≤ e.time - t := by
            have := not_lt.mp hw
            rwa [abs_of_pos (by linarith)] at this
          have : ¬ |x.time - t| < 100⁻¹ := by
            rw [abs_of_pos (by linarith)]
            linarith
          simp [inWindow, this]
        have f1 : rest.filter (inWindow t) = [] := by
          rw [List.filter_eq_nil_iff]
          intro x hx
          simp [hfar x hx]
        have f2 : rest.filter (fun e => !inWindow t e) = rest := by
          rw [List.filter_eq_self]
          intro x hx
          simp [hfar x hx]
        simp [drainNotes, hw, hg, hi, f1, f2]
      · simp [drainNotes, hw, hg, hi, i1, i2]

/-- C17: on a pending sequence sorted by time, `getNotesAtTime(t)` returns the
columns of exactly the pending events with `|time - t| < 0.01`, in sequence
order, removes exactly those events, keeps all others in their order, leaves
the other fields of the beatmap alone, and the pending sequence stays sorted. -/
theorem getNotesAtTime_sorted (b : Beatmap) (t : ℚ)
    (h : b.notes.Pairwise (fun x y => x.time ≤ y.time)) :
    (b.getNotesAtTime t).1 = (b.notes.filter (inWindow t)).map (fun e => e.column) ∧
    (b.getNotesAtTime t).2 = { b with notes := b.notes.filter (fun e => !inWindow t e) } ∧
    ((b.getNotesAtTime t).2.notes).Pairwise (fun x y => x.time ≤ y.time) := by
  obtain ⟨h1, h2⟩ := drainNotes_sorted t b.notes h
  refine ⟨h1, ?_, ?_⟩
  · simp only [Beatmap.getNotesAtTime, h2]
  · simp only [Beatmap.getNotesAtTime, h2]
    exact h.sublist (List.filter_sublist _)

theorem getNotesAtTime_sorted_witness :
    (beatmapFourEvents.getNotesAtTime (2005 / 1000)).1 = [1, 3] ∧
    (beatmapFourEvents.getNotesAtTime (2005 / 1000)).2.notes =
      [{ time := 1, column := 0 }, { time := 3, column := 2 }] := by
  have h := getNotesAtTime_sorted beatmapFourEvents (2005 / 1000)
    (by norm_num [beatmapFourEvents])
  rw [h.1, h.2.1]
  have a1 : |(1 : ℚ) - 2005 / 1000| = 1005 / 1000 := by
    rw [abs_of_neg (by norm_num)]; norm_num
  have a2 : |(2 : ℚ) - 2005 / 1000| = 5 / 1000 := by
    rw [abs_of_neg (by norm_num)]; norm_num
  have a3 : |(3 : ℚ) - 2005 / 1000| = 995 / 1000 := by
    rw [abs_of_pos (by norm_num)]; norm_num
  simp [beatmapFourEvents, inWindow, List.filter_cons, a1, a2, a3]
  norm_num

/-! ## The procedural generator -/

theorem generateNotePattern_eq (s : Session) (n : Int) (r : Rng) :
    generateNotePattern s n r = { s with notes := s.notes ++ (patternColumns n r).map newNote } := by
  unfold generateNotePattern patternColumns
  split_ifs <;> simp [createNote, newNote, foldl_createNote_eq]

/-- C18: for a group size in {1, 2, 3}, draws inside the ranges of their
distributions and a shuffle that permutes the four columns,
`generateNotePattern` appends exactly `notesCount` notes, each unresolved at
position 0, in pairwise distinct columns within `[0, 4)`, and changes nothing
else; for size 2 the columns are `c, c + 1` with `0 ≤ c ≤ 2`, or `0, 3`. -/
theorem generateNotePattern_shape (s : Session) (notesCount : Int) (r : Rng)
    (hn : notesCount = 1 ∨ notesCount = 2 ∨ notesCount = 3)
    (hcol : 0 ≤ r.column ∧ r.column ≤ 3)
    (hpat : r.patternType = 0 ∨ r.patternType = 1)
    (hstart : 0 ≤ r.startCol ∧ r.startCol ≤ 2)
    (hshuf : r.shuffled.Perm [0, 1, 2, 3]) :
    ∃ cols : List Int,
      generateNotePattern s notesCount r =
        { s with notes := s.notes ++ cols.map newNote } ∧
      (∀ c : Int, newNote c = { position := 0, column := c, hit := false, missed := false }) ∧
      (cols.length : Int) = notesCount ∧
      (∀ c ∈ cols, 0 ≤ c ∧ c < 4) ∧
      cols.Nodup ∧
      (notesCount = 2 → (∃ c, 0 ≤ c ∧ c ≤ 2 ∧ cols = [c, c + 1]) ∨ cols = [0, 3]) := by
  refine ⟨patternColumns notesCount r, generateNotePattern_eq s notesCount r, fun _ => rfl, ?_⟩
  rcases hn with rfl | rfl | rfl
  · simp only [patternColumns, if_true]
    refine ⟨rfl, ?_, List.nodup_singleton _, fun h => absurd h (by decide)⟩
    intro c hc
    rw [List.mem_singleton] at hc
    subst hc
    exact ⟨hcol.1, by omega⟩
  · have h21 : ¬ ((2 : Int) = 1) := by decide
    simp only [patternColumns, h21, if_false, if_true]
    rcases hpat with hp | hp
    · rw [if_pos hp]
      refine ⟨rfl, ?_, ?_, fun _ => Or.inl ⟨r.startCol, hstart.1, hstart.2, rfl⟩⟩
      · intro c hc
        simp only [List.mem_cons, List.mem_singleton, List.not_mem_nil, or_false] at hc
        rcases hc with rfl | rfl <;> constructor <;> omega
      · simp
    · have hp0 : ¬ r.patternType = 0 := by omega
      rw [if_neg hp0]
      refine ⟨rfl, ?_, by decide, fun _ => Or.inr rfl⟩
      intro c hc
      simp only [COLUMN_COUNT, List.mem_cons, List.mem_singleton, List.not_mem_nil, or_false] at hc
      rcases hc with rfl | rfl <;> constructor <;> omega
  · have h31 : ¬ ((3 : Int) = 1) := by decide
    have h32 : ¬ ((3 : Int) = 2) := by decide
    simp only [patternColumns, h31, h32, if_false, if_true]
    have hlen : r.shuffled.length = 4 := by simpa using hshuf.length_eq
    refine ⟨?_, ?_, ?_, fun h => absurd h (by decide)⟩
    · simp [List.length_take, hlen]
    · intro c hc
      have hm : c ∈ ([0, 1, 2, 3] : List Int) := hshuf.subset (List.mem_of_mem_take hc)
      simp only [List.mem_cons, List.mem_singleton, List.not_mem_nil, or_false] at hm
      rcases hm with rfl | rfl | rfl | rfl <;> constructor <;> omega
    · have hnd : r.shuffled.Nodup := hshuf.nodup_iff.mpr (by decide)
      exact hnd.sublist (List.take_sublist 3 _)

theorem generateNotePattern_shape_witness :
    ∃ cols : List Int,
      generateNotePattern Session.new 3 tick16.rng =
        { Session.new with notes := Session.new.notes ++ cols.map newNote } ∧
      (∀ c : Int, newNote c = { position := 0, column := c, hit := false, missed := false }) ∧
      (cols.length : Int) = 3 ∧
      (∀ c ∈ cols, 0 ≤ c ∧ c < 4) ∧
      cols.Nodup ∧
      ((3 : Int) = 2 → (∃ c, 0 ≤ c ∧ c ≤ 2 ∧ cols = [c, c + 1]) ∨ cols = [0, 3]) :=
  generateNotePattern_shape Session.new 3 tick16.rng (by decide) (by decide) (by decide)
    (by decide) (by decide)

/-! ## Notes created in a tick -/

theorem updateSpawn_notes (s : Session) (t : Tick) :
    (updateSpawn s t).notes = s.notes ++ (spawnedColumns s t).map newNote := by
  have hc : (updateClock s t).notes = s.notes ∧
      (updateClock s t).gameTime = s.gameTime + t.deltaTime ∧
      (updateClock s t).currentBeatmap = s.currentBeatmap ∧
      (updateClock s t).noteGenerationTimer = s.noteGenerationTimer ∧
      (updateClock s t).nextGenerationInterval = s.nextGenerationInterval := by
    unfold updateClock
    simp only
    split_ifs <;> exact ⟨rfl, rfl, rfl, rfl, rfl⟩
  obtain ⟨c1, c2, c3, c4, c5⟩ := hc
  unfold updateSpawn spawnedColumns
  simp only
  by_cases hr : s.useRandomNotes = false
  · rw [if_pos hr, if_pos hr]
    have ha : (afterBeatmapSpawn s t).notes = s.notes ++
        ((drainNotes (s.gameTime + t.deltaTime - s.currentBeatmap.offset)
          s.currentBeatmap.notes).1).map newNote := by
      unfold afterBeatmapSpawn
      simp only [foldl_createNote_eq, Beatmap.getNotesAtTime, c1, c2, c3]
    split_ifs <;> exact ha
  · rw [if_neg hr, if_neg hr, c4, c5]
    by_cases hf : s.noteGenerationTimer + t.deltaTime > s.nextGenerationInterval
    · rw [if_pos hf, if_pos hf]
      simp only [generateNotePattern_eq, c1]
    · rw [if_neg hf, if_neg hf]
      simp [c1]

theorem update_missedHits (s : Session) (t : Tick) :
    (update s t).missedHits =
      s.missedHits + (((updateSpawn s t).notes.filter (crosses t.deltaTime)).length : Int) := by
  have h1 := stats_update s t
  have h2 := stats_updateSpawn s t
  obtain ⟨-, -, -, -, -, -, m7, -⟩ :=
    moveNotes_stats t.deltaTime (updateSpawn s t).notes (updateSpawn s t)
  simp only [stats, Prod.mk.injEq] at h1 h2
  rw [h1.2.2.2.2.2.2.2, m7, h2.2.2.2.2.2.2.2]

theorem survives_newNote (dt : ℚ) (c : Int) (h : dt ≤ 54 / 100) :
    survives dt (newNote c) = true := by
  have : (NOTE_SPEED : ℚ) * dt ≤ missThreshold := by
    simp only [NOTE_SPEED, missThreshold, JUDGMENT_LINE_Y, NOTE_HEIGHT]
    push_cast
    linarith
  simp only [survives, newNote, Note.unresolved]
  simp [this]

theorem crosses_newNote (dt : ℚ) (c : Int) (h : dt ≤ 54 / 100) :
    crosses dt (newNote c) = false := by
  have : (NOTE_SPEED : ℚ) * dt ≤ missThreshold := by
    simp only [NOTE_SPEED, missThreshold, JUDGMENT_LINE_Y, NOTE_HEIGHT]
    push_cast
    linarith
  simp only [crosses, newNote, Note.unresolved]
  simp [this]

/-- C15 (amended): in a tick of length at most 0.54 s no note created in that
tick is marked missed.  The notes after `update` are the advanced surviving
old notes followed by every note created in the call, each unresolved at
position `NOTE_SPEED * deltaTime`, and the misses counted in the tick are
those of old notes only. -/
theorem update_keeps_spawned (s : Session) (t : Tick) (hdt : t.deltaTime ≤ 54 / 100) :
    (updateSpawn s t).notes = s.notes ++ (spawnedColumns s t).map newNote ∧
    (update s t).notes =
      (s.notes.filter (survives t.deltaTime)).map (advance t.deltaTime) ++
      (spawnedColumns s t).map (fun c =>
        { position := (NOTE_SPEED : ℚ) * t.deltaTime, column := c, hit := false, missed := false }) ∧
    (update s t).missedHits =
      s.missedHits + ((s.notes.filter (crosses t.deltaTime)).length : Int) := by
  have hn := updateSpawn_notes s t
  refine ⟨hn, ?_, ?_⟩
  · rw [update_notes, hn, List.filter_append, List.map_append]
    congr 1
    have hall : ((spawnedColumns s t).map newNote).filter (survives t.deltaTime) =
        (spawnedColumns s t).map newNote := by
      rw [List.filter_eq_self]
      intro n hn
      obtain ⟨c, -, rfl⟩ := List.mem_map.mp hn
      exact survives_newNote _ c hdt
    rw [hall, List.map_map]
    apply List.map_congr_left
    intro c _
    simp [advance, newNote]
  · rw [update_missedHits, hn, List.filter_append]
    have hnone : ((spawnedColumns s t).map newNote).filter (crosses t.deltaTime) = [] := by
      rw [List.filter_eq_nil_iff]
      intro n hn
      obtain ⟨c, -, rfl⟩ := List.mem_map.mp hn
      simp [crosses_newNote _ c hdt]
    rw [hnone, List.append_nil]

theorem update_keeps_spawned_witness :
    (updateSpawn (sessionSingleEvent (199 / 100)) tick16).notes =
      (sessionSingleEvent (199 / 100)).notes ++
        (spawnedColumns (sessionSingleEvent (199 / 100)) tick16).map newNote ∧
    (update (sessionSingleEvent (199 / 100)) tick16).notes =
      ((sessionSingleEvent (199 / 100)).notes.filter (survives tick16.deltaTime)).map
          (advance tick16.deltaTime) ++
      (spawnedColumns (sessionSingleEvent (199 / 100)) tick16).map (fun c =>
        { position := (NOTE_SPEED : ℚ) * tick16.deltaTime, column := c, hit := false,
          missed := false }) ∧
    (update (sessionSingleEvent (199 / 100)) tick16).missedHits =
      (sessionSingleEvent (199 / 100)).missedHits +
        (((sessionSingleEvent (199 / 100)).notes.filter (crosses tick16.deltaTime)).length : Int) :=
  update_keeps_spawned (sessionSingleEvent (199 / 100)) tick16 (by norm_num [tick16])

theorem spawnedColumns_sessionProcedural : spawnedColumns sessionProcedural tick600 = [2] := by
  norm_num [spawnedColumns, sessionProcedural, Session.new, tick600, patternColumns]

/-- C15 (counterexample): in procedural mode a tick of 0.6 s fires the
generator, which creates one note in column 2; the movement loop of the same
tick takes it to position 600, marks it missed and counts the miss, and the
purge removes it. -/
theorem update_misses_spawned_note :
    0 < tick600.deltaTime ∧
    (updateSpawn sessionProcedural tick600).notes = sessionProcedural.notes ++ [newNote 2] ∧
    (update sessionProcedural tick600).notes = [] ∧
    (update sessionProcedural tick600).missedHits = sessionProcedural.missedHits + 1 := by
  have hn := updateSpawn_notes sessionProcedural tick600
  rw [spawnedColumns_sessionProcedural] at hn
  have hs : sessionProcedural.notes = [] := rfl
  have hc : crosses tick600.deltaTime (newNote 2) = true := by
    norm_num [crosses, newNote, Note.unresolved, tick600, NOTE_SPEED, missThreshold,
      JUDGMENT_LINE_Y, NOTE_HEIGHT]
  have hv : survives tick600.deltaTime (newNote 2) = false := by
    norm_num [survives, newNote, Note.unresolved, tick600, NOTE_SPEED, missThreshold,
      JUDGMENT_LINE_Y, NOTE_HEIGHT]
  refine ⟨by norm_num [tick600], hn, ?_, ?_⟩
  · rw [update_notes, hn, hs]
    simp [List.filter_cons, hv]
  · rw [update_missedHits, hn, hs]
    simp [List.filter_cons, hc]

/-! ## Where the auto-miss fires -/

theorem moveNotes_getElem? (dt : ℚ) (l : List Note) (s : Session) (i : Nat) :
    (moveNotes dt l s).1[i]? = (l[i]?).map (moveNote dt) := by
  rw [moveNotes_notes, List.getElem?_map]

/-- C16 (amended): the windows are strictly nested, 20 < 50 < 100, and a note
that the movement loop of a tick marks missed was unresolved and is, once
advanced, past position 540: beyond the judgment line at a distance greater
than 40 (twice the note height), which may still be less than 100. -/
theorem tick_miss_past_slack (dt : ℚ) (l : List Note) (s : Session) (i : Nat) (n n' : Note)
    (hn : l[i]? = some n) (hn' : (moveNotes dt l s).1[i]? = some n')
    (hm : n.missed = false) (hm' : n'.missed = true) :
    (PERFECT_WINDOW < GREAT_WINDOW ∧ GREAT_WINDOW < GOOD_WINDOW) ∧
    n.hit = false ∧
    n'.position = n.position + (NOTE_SPEED : ℚ) * dt ∧
    n'.position > 540 ∧
    n'.distance > 40 := by
  rw [moveNotes_getElem?, hn, Option.map_some', Option.some.injEq] at hn'
  subst hn'
  rcases n with ⟨p, c, h, m⟩
  simp only at hm
  subst hm
  have h540 : missThreshold = 540 := by norm_num [missThreshold, JUDGMENT_LINE_Y, NOTE_HEIGHT]
  by_cases hx : p + (NOTE_SPEED : ℚ) * dt > missThreshold
  · cases h
    · have hmv : moveNote dt ⟨p, c, false, false⟩ =
          ⟨p + (NOTE_SPEED : ℚ) * dt, c, false, true⟩ := by
        simp [moveNote, crosses, advance, Note.unresolved, hx]
      rw [hmv]
      rw [h540] at hx
      refine ⟨by decide, rfl, rfl, hx, ?_⟩
      simp only [Note.distance, JUDGMENT_LINE_Y]
      push_cast
      rw [abs_of_pos (by linarith)]
      linarith
    · have hmv : moveNote dt ⟨p, c, true, false⟩ = ⟨p, c, true, false⟩ := by
        simp [moveNote, crosses, advance, Note.unresolved]
      rw [hmv] at hm'
      simp at hm'
  · have hmv : (moveNote dt ⟨p, c, h, false⟩).missed = false := by
      cases h <;> simp [moveNote, crosses, advance, Note.unresolved, hx]
    rw [hmv] at hm'
    simp at hm'

theorem moveNotes_note530 (s : Session) :
    (moveNotes (16 / 1000) [{ position := 530, column := 1, hit := false, missed := false }] s).1 =
      [{ position := 546, column := 1, hit := false, missed := true }] := by
  rw [moveNotes_notes]
  norm_num [moveNote, crosses, advance, Note.unresolved, NOTE_SPEED, missThreshold,
    JUDGMENT_LINE_Y, NOTE_HEIGHT]

theorem tick_miss_past_slack_witness :
    (PERFECT_WINDOW < GREAT_WINDOW ∧ GREAT_WINDOW < GOOD_WINDOW) ∧
    (false = false) ∧
    (546 : ℚ) = 530 + (NOTE_SPEED : ℚ) * (16 / 1000) ∧
    (546 : ℚ) > 540 ∧
    Note.distance { position := 546, column := 1, hit := false, missed := true } > 40 :=
  tick_miss_past_slack (16 / 1000)
    [{ position := 530, column := 1, hit := false, missed := false }] Session.new 0
    { position := 530, column := 1, hit := false, missed := false }
    { position := 546, column := 1, hit := false, missed := true }
    rfl (by rw [moveNotes_note530]; rfl) rfl rfl

/-- C16 (counterexample): a note at position 530 is 30 from the judgment
line; a tick of 16 ms takes it to 546 and marks it missed, at distance 46,
inside the Good window (and the Great window): a key press on a note at that
position is judged Great. -/
theorem tick_misses_inside_good_window :
    (moveNotes (16 / 1000) [{ position := 530, column := 1, hit := false, missed := false }]
      Session.new).1 = [{ position := 546, column := 1, hit := false, missed := true }] ∧
    Note.distance { position := 546, column := 1, hit := false, missed := true } <
      (GOOD_WINDOW : ℚ) ∧
    (update (sessionNoteAt 530) tick16).missedHits = (sessionNoteAt 530).missedHits + 1 ∧
    (update (sessionNoteAt 530) tick16).notes = [] ∧
    (handleKeyPress (sessionNoteAt 546) 1).currentJudgment.type = JudgmentType.GREAT := by
  have hsp : (updateSpawn (sessionNoteAt 530) tick16).notes = (sessionNoteAt 530).notes := by
    rw [updateSpawn_notes]
    norm_num [spawnedColumns, sessionNoteAt, Session.new, tick16]
  have hc : crosses tick16.deltaTime
      { position := 530, column := 1, hit := false, missed := false } = true := by
    norm_num [crosses, Note.unresolved, tick16, NOTE_SPEED, missThreshold,
      JUDGMENT_LINE_Y, NOTE_HEIGHT]
  have hv : survives tick16.deltaTime
      { position := 530, column := 1, hit := false, missed := false } = false := by
    norm_num [survives, Note.unresolved, tick16, NOTE_SPEED, missThreshold,
      JUDGMENT_LINE_Y, NOTE_HEIGHT]
  have hcl : closest (sessionNoteAt 546) 1 = (some 0, 46) := by
    norm_num [closest, sessionNoteAt, scanClosest, Note.distance, JUDGMENT_LINE_Y, FLT_MAX]
  refine ⟨moveNotes_note530 _, ?_, ?_, ?_, ?_⟩
  · norm_num [Note.distance, JUDGMENT_LINE_Y, GOOD_WINDOW]
  · rw [update_missedHits, hsp]
    simp [sessionNoteAt, List.filter_cons, hc]
  · rw [update_notes, hsp]
    simp [sessionNoteAt, List.filter_cons, hv]
  · rw [handleKeyPress_hit_judgment _ 1 0 46 rfl hcl (by norm_num [GOOD_WINDOW])]
    norm_num [PERFECT_WINDOW, GREAT_WINDOW]

/-! ## Reloading and the order of ties -/

theorem validEvents_fileSingleEvent (L : StdLib) (h1 : L.stof = plainStof)
    (h2 : L.stoi = plainStoi) :
    validEvents L fileSingleEvent = [{ time := 2, column := 1 }] := by
  simp [validEvents, fileSingleEvent, validEvent, isSkipped, splitLine, h1, h2, plainStof,
    plainStoi, parseNat, digitsValue]

theorem validEvents_fileMixed (L : StdLib) (h1 : L.stof = plainStof)
    (h2 : L.stoi = plainStoi) :
    validEvents L fileMixed =
      [{ time := 2, column := 1 }, { time := 3 / 2, column := 3 }, { time := 1 / 2, column := 0 }] := by
  simp [validEvents, fileMixed, validEvent, isSkipped, splitLine, h1, h2, plainStof,
    plainStoi, parseNat, digitsValue]
  norm_num

/-- C11 (amended): when the valid events of a file have pairwise different
times, the loaded sequence is the valid events in increasing order of time,
whichever way `std::sort` treats ties; so the load keeps file order among
equal-time events for such files. -/
theorem loadFromFile_order_determined (L : StdLib) (b : Beatmap) (lines : List String)
    (h : (validEvents L lines).Pairwise (fun x y => x.time ≠ y.time)) :
    (loadFromFile L b (some lines)).2.notes = stableSort (validEvents L lines) ∧
    ((loadFromFile L b (some lines)).2.notes).Pairwise (fun x y => x.time < y.time) ∧
    keepsFileOrderOfTies L b lines := by
  have hsymm : ∀ {x y : BeatmapNote}, x.time ≠ y.time → y.time ≠ x.time := fun h => Ne.symm h
  have lt1 : (L.sort (validEvents L lines)).Pairwise (fun x y => x.time < y.time) := by
    have hne := ((L.sort_perm (validEvents L lines)).pairwise_iff hsymm).mpr h
    exact ((L.sort_sorted _).and hne).imp (fun hxy => lt_of_le_of_ne (not_lt.mp hxy.1) hxy.2)
  have lt2 : (stableSort (validEvents L lines)).Pairwise (fun x y => x.time < y.time) := by
    have hne := ((List.perm_insertionSort timeLe (validEvents L lines)).pairwise_iff hsymm).mpr h
    exact ((List.sorted_insertionSort timeLe (validEvents L lines)).and hne).imp
      (fun hxy => lt_of_le_of_ne hxy.1 hxy.2)
  haveI : IsAntisymm BeatmapNote (fun x y => x.time < y.time) :=
    ⟨fun _ _ h1 h2 => absurd h1 (lt_asymm h2)⟩
  have heq : L.sort (validEvents L lines) = stableSort (validEvents L lines) :=
    List.eq_of_perm_of_sorted
      ((L.sort_perm _).trans (List.perm_insertionSort timeLe _).symm) lt1 lt2
  have hload := loadFromFile_notes L b lines
  refine ⟨hload.trans heq, by rw [hload]; exact lt1, ?_⟩
  intro τ
  rw [hload]
  have one : ∀ l : List BeatmapNote, l.Pairwise (fun x y => x.time ≠ y.time) →
      ∀ e ∈ l, l.filter (fun x => decide (x.time = τ)) = if e.time = τ then [e] else
        l.filter (fun x => decide (x.time = τ)) := by
    intro l hl
    induction l with
    | nil => intro e he; simp at he
    | cons a rest ih =>
      obtain ⟨ha, hrest⟩ := List.pairwise_cons.mp hl
      intro e he
      split_ifs with hτ
      · rcases List.mem_cons.mp he with rfl | hin
        · have : rest.filter (fun x => decide (x.time = τ)) = [] := by
            rw [List.filter_eq_nil_iff]
            intro x hx
            have := ha x hx
            simp only [decide_eq_true_eq]
            intro hxe
            exact this (hτ.trans hxe.symm)
          simp [List.filter_cons, hτ, this]
        · have hae : ¬ a.time = τ := fun hat => ha e hin (hat.trans hτ.symm)
          have := ih hrest e hin
          rw [if_pos hτ] at this
          simp [List.filter_cons, hae, this]
      · rfl
  by_cases hex : ∃ e ∈ validEvents L lines, e.time = τ
  · obtain ⟨e, he, hτ⟩ := hex
    have h1 := one _ h e he
    have hne := ((L.sort_perm (validEvents L lines)).pairwise_iff hsymm).mpr h
    have h2 := one _ hne e ((L.sort_perm _).mem_iff.mpr he)
    rw [if_pos hτ] at h1 h2
    rw [h1, h2]
  · have n1 : (validEvents L lines).filter (fun x => decide (x.time = τ)) = [] := by
      rw [List.filter_eq_nil_iff]
      intro x hx
      simp only [decide_eq_true_eq]
      exact fun hxt => hex ⟨x, hx, hxt⟩
    have n2 : (L.sort (validEvents L lines)).filter (fun x => decide (x.time = τ)) = [] := by
      rw [List.filter_eq_nil_iff]
      intro x hx
      simp only [decide_eq_true_eq]
      exact fun hxt => hex ⟨x, (L.sort_perm _).mem_iff.mp hx, hxt⟩
    rw [n1, n2]

theorem readHeader_songLength (L : StdLib) (b : Beatmap) (lines : List String) :
    (readHeader L b lines).1.songLength = b.songLength := by
  rcases lines with _ | ⟨l1, _ | ⟨l2, _ | ⟨l3, r⟩⟩⟩ <;> rfl

theorem readHeader_musicFile (L : StdLib) (b : Beatmap) (lines : List String)
    (h : lines.drop 3 ≠ []) :
    lines[1]? = some (readHeader L b lines).1.musicFile := by
  rcases lines with _ | ⟨l1, _ | ⟨l2, _ | ⟨l3, r⟩⟩⟩
  · simp at h
  · simp at h
  · simp at h
  · rfl

/-- The parse loop leaves in `songLength` the running maximum over the valid events. -/
theorem parseLines_songLength (L : StdLib) (lines : List String) (notes : List BeatmapNote)
    (len : ℚ) :
    (parseLines L lines notes len).2 = maxTime len (lines.filterMap (validEvent L)) := by
  induction lines generalizing notes len with
  | nil => simp [parseLines, maxTime]
  | cons line rest ih =>
    unfold parseLines
    by_cases hs : isSkipped line = true
    · simp [hs, ih, validEvent, List.filterMap_cons]
    · simp only [hs, if_false, List.filterMap_cons, validEvent]
      cases hsp : splitLine line with
      | none => simp [ih]
      | some p =>
        obtain ⟨timeStr, columnStr⟩ := p
        cases ht : L.stof timeStr with
        | none => simp [ht, ih]
        | some time =>
          cases hc : L.stoi columnStr with
          | none => simp [ht, hc, ih]
          | some column =>
            by_cases hr : column ≥ 0 ∧ column < COLUMN_COUNT
            · have hr2 : 0 ≤ column ∧ column < 4 := hr
              simp [ht, hc, hr, hr2, ih, maxTime]
            · have hr2 : ¬ (0 ≤ column ∧ column < 4) := hr
              simp [ht, hc, hr, hr2, ih]

/-- The song length a load stores: the running maximum of the event times,
started from the song length the store held before, plus 5. -/
theorem loadFromFile_songLength (L : StdLib) (b : Beatmap) (lines : List String) :
    (loadFromFile L b (some lines)).2.songLength =
      maxTime b.songLength (validEvents L lines) + 5 := by
  simp [loadFromFile, parseLines_songLength, readHeader_rest, readHeader_songLength, validEvents]

theorem loadFromFile_result (L : StdLib) (b : Beatmap) (lines : List String) :
    (loadFromFile L b (some lines)).1 =
      (!(L.sort (validEvents L lines)).isEmpty &&
        !(readHeader L { b with notes := [] } lines).1.musicFile.isEmpty) ∧
    (loadFromFile L b (some lines)).2.loaded = (loadFromFile L b (some lines)).1 := by
  simp [loadFromFile, parseLines_notes, readHeader_rest, readHeader_notes, validEvents]

theorem sort_eq_nil_iff (L : StdLib) (l : List BeatmapNote) : L.sort l = [] ↔ l = [] := by
  constructor
  · intro h
    have := L.sort_perm l
    rw [h] at this
    exact this.symm.eq_nil
  · intro h
    subst h
    exact (L.sort_perm []).eq_nil

/-- C12: for a file that opens, whatever the store held, `loadFromFile`
returns true (and sets `loaded`) exactly when the file has at least one valid
data line and its second line is present and not empty; with no valid data
line it returns false, and the reload branch of `handleEvent` then sets
`useRandomNotes` to true. -/
theorem loadFromFile_loaded_iff (L : StdLib) (b : Beatmap) (lines : List String) :
    ((loadFromFile L b (some lines)).1 = true ↔
      (validEvents L lines ≠ [] ∧ ∃ m, lines[1]? = some m ∧ m ≠ "")) ∧
    (loadFromFile L b (some lines)).2.loaded = (loadFromFile L b (some lines)).1 ∧
    (validEvents L lines = [] → (loadFromFile L b (some lines)).1 = false) ∧
    (validEvents L lines = [] → ∀ (s : Session) (env : Env),
      s.gameEnded = false → env.file = some lines →
      (handleEvent L s (Event.KEYDOWN Keycode.r) env).useRandomNotes = true) := by
  obtain ⟨hr, hl⟩ := loadFromFile_result L b lines
  have hiff : (loadFromFile L b (some lines)).1 = true ↔
      (validEvents L lines ≠ [] ∧ ∃ m, lines[1]? = some m ∧ m ≠ "") := by
    rw [hr]
    simp only [Bool.and_eq_true, Bool.not_eq_true', List.isEmpty_eq_false, ne_eq,
      sort_eq_nil_iff]
    constructor
    · rintro ⟨h1, h2⟩
      have hd : lines.drop 3 ≠ [] := by
        intro hd
        apply h1
        simp [validEvents, hd]
      refine ⟨h1, _, readHeader_musicFile L { b with notes := [] } lines hd, ?_⟩
      intro he
      rw [he] at h2
      exact absurd h2 (by decide)
    · rintro ⟨h1, m, hm, hne⟩
      have hd : lines.drop 3 ≠ [] := by
        intro hd
        apply h1
        simp [validEvents, hd]
      have := readHeader_musicFile L { b with notes := [] } lines hd
      rw [hm, Option.some.injEq] at this
      refine ⟨h1, ?_⟩
      rw [← this]
      cases hb : m.isEmpty
      · rfl
      · exact absurd ((String.isEmpty_iff m).mp hb) hne
  have hfalse : ∀ b' : Beatmap, validEvents L lines = [] →
      (loadFromFile L b' (some lines)).1 = false := by
    intro b' hv
    rw [(loadFromFile_result L b' lines).1, hv]
    have : L.sort [] = [] := (sort_eq_nil_iff L []).mpr rfl
    simp [this]
  refine ⟨hiff, hl, hfalse b, ?_⟩
  intro hv s env hge hfile
  have hsym : ¬ (Keycode.r = Keycode.ESCAPE) := by decide
  have hge' : ¬ (s.gameEnded = true) := by simp [hge]
  simp only [handleEvent, hsym, hge', hge, if_false, if_true, and_self]
  have hre : (reload L s env).useRandomNotes = true ∧ (reload L s env).gameStarted = false := by
    unfold reload
    simp only [hfile]
    rw [hfalse _ hv]
    exact ⟨rfl, rfl⟩
  simp [pressKeys, hre.1, hre.2]

/-- C13 (evaluation at the failing input): the file with the single event
`2.0,1` loads into a fresh store with song length 7 = 2 + 5; loading the same
file again into that store gives the same events and song length 12. -/
theorem loadFromFile_twice_songLength :
    (loadFromFile stableLib Beatmap.new (some fileSingleEvent)).1 = true ∧
    (loadFromFile stableLib Beatmap.new (some fileSingleEvent)).2.notes =
      [{ time := 2, column := 1 }] ∧
    (loadFromFile stableLib Beatmap.new (some fileSingleEvent)).2.songLength = 7 ∧
    (loadFromFile stableLib (loadFromFile stableLib Beatmap.new (some fileSingleEvent)).2
      (some fileSingleEvent)).1 = true ∧
    (loadFromFile stableLib (loadFromFile stableLib Beatmap.new (some fileSingleEvent)).2
      (some fileSingleEvent)).2.notes = [{ time := 2, column := 1 }] ∧
    (loadFromFile stableLib (loadFromFile stableLib Beatmap.new (some fileSingleEvent)).2
      (some fileSingleEvent)).2.songLength = 12 := by
  have hv := validEvents_fileSingleEvent stableLib rfl rfl
  have hs : stableLib.sort [({ time := 2, column := 1 } : BeatmapNote)] =
      [{ time := 2, column := 1 }] := by
    simp [stableLib, stableSort, List.insertionSort, List.orderedInsert]
  have hm : ∃ m, fileSingleEvent[1]? = some m ∧ m ≠ "" := ⟨"song.mp3", rfl, by decide⟩
  have h7 : (loadFromFile stableLib Beatmap.new (some fileSingleEvent)).2.songLength = 7 := by
    rw [loadFromFile_songLength, hv]
    norm_num [maxTime, Beatmap.new]
  have hload : ∀ b : Beatmap, (loadFromFile stableLib b (some fileSingleEvent)).1 = true ∧
      (loadFromFile stableLib b (some fileSingleEvent)).2.notes = [{ time := 2, column := 1 }] := by
    intro b
    have h1 := loadFromFile_result stableLib b fileSingleEvent
    refine ⟨?_, by rw [loadFromFile_notes, hv, hs]⟩
    rw [h1.1, hv, hs]
    rfl
  refine ⟨(hload _).1, (hload _).2, h7, (hload _).1, (hload _).2, ?_⟩
  rw [loadFromFile_songLength, h7, hv]
  norm_num [maxTime]

/-! ## Restart and reload -/

theorem sched_moveNotes (dt : ℚ) (l : List Note) (s : Session) :
    sched (moveNotes dt l s).2 = sched s := by
  induction l generalizing s with
  | nil => rfl
  | cons n ns ih =>
    simp only [moveNotes]
    split_ifs
    · exact (ih (handleMiss s)).trans rfl
    · exact ih s
    · exact ih s

theorem sched_update (s : Session) (t : Tick) : sched (update s t) = sched (updateSpawn s t) := by
  have hj : ∀ (x : Session) (dt : ℚ), sched (updateJudgment x dt) = sched x := by
    intro x dt
    unfold updateJudgment
    simp only
    split_ifs <;> rfl
  unfold update
  simp only
  exact (hj _ _).trans (sched_moveNotes _ _ _)

/-- The scheduler fields after a beatmap-mode tick. -/
theorem sched_update_beatmap (s : Session) (t : Tick) (h : s.useRandomNotes = false) :
    (update s t).currentBeatmap =
      { s.currentBeatmap with
        notes := (drainNotes (s.gameTime + t.deltaTime - s.currentBeatmap.offset)
          s.currentBeatmap.notes).2 } ∧
    (update s t).gameTime = s.gameTime + t.deltaTime ∧
    (update s t).useRandomNotes = false ∧
    (update s t).musicPlaying = (s.musicPlaying && t.mixPlayingMusic) := by
  have hs : sched (updateSpawn s t) = sched (afterBeatmapSpawn s t) := by
    unfold updateSpawn
    simp only [h, if_true]
    split_ifs <;> rfl
  have ha : sched (afterBeatmapSpawn s t) =
      ({ s.currentBeatmap with
          notes := (drainNotes (s.gameTime + t.deltaTime - s.currentBeatmap.offset)
            s.currentBeatmap.notes).2 },
        s.gameTime + t.deltaTime, false, (s.musicPlaying && t.mixPlayingMusic)) := by
    unfold afterBeatmapSpawn
    rw [foldl_createNote_eq]
    cases hm : s.musicPlaying <;> cases hx : t.mixPlayingMusic <;>
      simp [sched, updateClock, Beatmap.getNotesAtTime, hm, hx, h]
  have := (sched_update s t).trans (hs.trans ha)
  simp only [sched, Prod.mk.injEq] at this
  exact this

/-- The restart branch resets the statistics, the notes, the clock and the
flags, and leaves the beatmap as it is. -/
theorem restart_fields (s : Session) (env : Env) :
    stats (restart s env) = (0, 0, 0, 0, 0, 0, 0, 0) ∧
    (restart s env).notes = [] ∧
    (restart s env).gameTime = 0 ∧
    (restart s env).noteGenerationTimer = 0 ∧
    (restart s env).nextGenerationInterval = env.interval2 ∧
    (restart s env).gameStarted = true ∧
    (restart s env).gameEnded = false ∧
    (restart s env).useRandomNotes = s.useRandomNotes ∧
    (restart s env).currentBeatmap = s.currentBeatmap := by
  unfold restart startGame
  simp only
  split_ifs
  · simp only [stats, resetStats, playMusic]
    split_ifs <;> simp
  · simp [stats, resetStats]

theorem handleEvent_restart (L : StdLib) (s : Session) (env : Env) (h : s.gameEnded = true) :
    handleEvent L s (Event.KEYDOWN Keycode.SPACE) env = restart s env := by
  have hsym : ¬ (Keycode.SPACE = Keycode.ESCAPE) := by decide
  simp [handleEvent, hsym, h]

theorem drainNotes_nil (t : ℚ) : drainNotes t [] = ([], []) := rfl

/-- A beatmap-mode tick on a session with nothing pending spawns nothing and
keeps the beatmap. -/
theorem update_nothing_pending (s : Session) (t : Tick) (h : s.useRandomNotes = false)
    (hp : s.currentBeatmap.notes = []) :
    spawnedColumns s t = [] ∧ (update s t).currentBeatmap = s.currentBeatmap ∧
    (update s t).notes = (s.notes.filter (survives t.deltaTime)).map (advance t.deltaTime) ∧
    (update s t).missedHits =
      s.missedHits + ((s.notes.filter (crosses t.deltaTime)).length : Int) := by
  have hsp : spawnedColumns s t = [] := by
    simp only [spawnedColumns, h, if_true, hp, drainNotes_nil]
  obtain ⟨b1, -⟩ := sched_update_beatmap s t h
  refine ⟨hsp, ?_, ?_, ?_⟩
  · rw [b1, hp, drainNotes_nil]
    cases hb : s.currentBeatmap
    simp only [hb] at hp
    simp [hp]
  · rw [update_notes, updateSpawn_notes, hsp, List.map_nil, List.append_nil]
  · rw [update_missedHits, updateSpawn_notes, hsp, List.map_nil, List.append_nil]

theorem sessionPlayedOut_ended :
    sessionPlayedOut.gameStarted = false ∧ sessionPlayedOut.gameEnded = true ∧
    sessionPlayedOut.useRandomNotes = false ∧ sessionPlayedOut.currentBeatmap.notes = [] ∧
    sessionPlayedOut.missedHits = 1 := by
  unfold sessionPlayedOut
  have d1 : drainNotes (1995 / 1000 + 10 / 1000 - 0) [({ time := 2, column := 1 } : BeatmapNote)] =
      ([1], []) := by
    have a1 : |(2 : ℚ) - (1995 / 1000 + 10 / 1000 - 0)| < 1 / 100 := by
      rw [abs_of_neg (by norm_num)]; norm_num
    simp only [drainNotes]
    rw [if_pos a1]
  have hsp1 : spawnedColumns (sessionSingleEvent (1995 / 1000)) tick10 = [1] := by
    simp only [spawnedColumns, sessionSingleEvent, tick10, Session.new, Beatmap.new, if_true]
    rw [d1]
  -- first tick: the event is spawned
  obtain ⟨b1, g1, r1, m1⟩ := sched_update_beatmap (sessionSingleEvent (1995 / 1000)) tick10 rfl
  have n1 : (update (sessionSingleEvent (1995 / 1000)) tick10).notes =
      [{ position := 10, column := 1, hit := false, missed := false }] := by
    rw [update_notes, updateSpawn_notes, hsp1]
    norm_num [sessionSingleEvent, Session.new, tick10, survives, advance, newNote,
      Note.unresolved, NOTE_SPEED, missThreshold, JUDGMENT_LINE_Y, NOTE_HEIGHT, List.filter_cons]
  have f1 : flags (update (sessionSingleEvent (1995 / 1000)) tick10) = (true, false) := by
    rw [flags_update, flags_updateSpawn]
    have hne : ¬ endOfSong (afterBeatmapSpawn (sessionSingleEvent (1995 / 1000)) tick10) = true := by
      rw [endOfSong_afterBeatmapSpawn]
      intro hc
      have := hc.2.1.2
      simp only [sessionSingleEvent, tick10, Session.new, Beatmap.new] at this
      rw [d1] at this
      simp at this
    rw [if_neg (fun hc => hne hc.2)]
    rfl
  have h1 : (update (sessionSingleEvent (1995 / 1000)) tick10).missedHits = 0 := by
    rw [update_missedHits, updateSpawn_notes, hsp1]
    norm_num [sessionSingleEvent, Session.new, tick10, crosses, newNote,
      Note.unresolved, NOTE_SPEED, missThreshold, JUDGMENT_LINE_Y, NOTE_HEIGHT, List.filter_cons]
  have p1 : (update (sessionSingleEvent (1995 / 1000)) tick10).currentBeatmap.notes = [] := by
    rw [b1]
    simp only [sessionSingleEvent, tick10, Session.new, Beatmap.new]
    rw [d1]
  have len1 : (update (sessionSingleEvent (1995 / 1000)) tick10).currentBeatmap.songLength = 7 ∧
      (update (sessionSingleEvent (1995 / 1000)) tick10).currentBeatmap.offset = 0 := by
    rw [b1]
    exact ⟨rfl, rfl⟩
  have hmus1 : (update (sessionSingleEvent (1995 / 1000)) tick10).musicPlaying = false := by
    rw [m1]; rfl
  have hg1 : (update (sessionSingleEvent (1995 / 1000)) tick10).gameTime = 2005 / 1000 := by
    rw [g1]
    norm_num [sessionSingleEvent, tick10]
  generalize update (sessionSingleEvent (1995 / 1000)) tick10 = s1 at *
  -- second tick: the note is missed
  obtain ⟨-, b2, n2, h2⟩ := update_nothing_pending s1 tick6s r1 p1
  obtain ⟨-, g2, r2, m2⟩ := sched_update_beatmap s1 tick6s r1
  have f2 : flags (update s1 tick6s) = (true, false) := by
    rw [flags_update, flags_updateSpawn]
    have hne : ¬ endOfSong (afterBeatmapSpawn s1 tick6s) = true := by
      rw [endOfSong_afterBeatmapSpawn]
      intro hc
      have := hc.2.1.1
      rw [n1] at this
      simp at this
    rw [if_neg (fun hc => hne hc.2)]
    exact f1
  rw [n1] at n2 h2
  have n2' : (update s1 tick6s).notes = [] := by
    rw [n2]
    norm_num [tick6s, survives, Note.unresolved, NOTE_SPEED, missThreshold, JUDGMENT_LINE_Y,
      NOTE_HEIGHT, List.filter_cons]
  have h2' : (update s1 tick6s).missedHits = 1 := by
    rw [h2, h1]
    norm_num [tick6s, crosses, Note.unresolved, NOTE_SPEED, missThreshold, JUDGMENT_LINE_Y,
      NOTE_HEIGHT, List.filter_cons]
  have p2 : (update s1 tick6s).currentBeatmap.notes = [] := by rw [b2]; exact p1
  have hmus2 : (update s1 tick6s).musicPlaying = false := by
    rw [m2, hmus1]; rfl
  have hg2 : (update s1 tick6s).gameTime = 8005 / 1000 := by
    rw [g2, hg1]
    norm_num [tick6s]
  have len2 : (update s1 tick6s).currentBeatmap.songLength = 7 ∧
      (update s1 tick6s).currentBeatmap.offset = 0 := by
    rw [b2]; exact len1
  clear n2 h2 g2 m2 b2
  generalize update s1 tick6s = s2 at *
  -- third tick: the song is over
  obtain ⟨hsp3, b3, n3, h3⟩ := update_nothing_pending s2 tick16 r2 p2
  obtain ⟨-, -, r3, -⟩ := sched_update_beatmap s2 tick16 r2
  have f3 : flags (update s2 tick16) = (false, true) := by
    rw [flags_update, flags_updateSpawn]
    have he : endOfSong (afterBeatmapSpawn s2 tick16) = true := by
      rw [endOfSong_afterBeatmapSpawn, p2, drainNotes_nil, hg2, len2.1, len2.2]
      exact ⟨rfl, ⟨n2', rfl⟩, by norm_num [tick16], Or.inl hmus2⟩
    rw [if_pos ⟨r2, he⟩]
  simp only [flags, Prod.mk.injEq] at f3
  have h3' : (update s2 tick16).missedHits = 1 := by
    rw [h3, n2', h2']
    simp
  exact ⟨f3.1, f3.2, r3, by rw [b3]; exact p2, h3'⟩

/-- C14 (evaluation at the failing input): the single-event session played to
its end is Ended with nothing pending; SPACE restarts it (running, statistics
zero, no notes, clock 0), but the pending sequence is still empty instead of
holding the event `2.0,1` again, so no tick of the replay spawns a note. -/
theorem restart_leaves_pending_empty :
    sessionPlayedOut.gameEnded = true ∧
    (sessionSingleEvent 0).currentBeatmap.notes = [{ time := 2, column := 1 }] ∧
    (handleEvent stableLib sessionPlayedOut (Event.KEYDOWN Keycode.SPACE) envNoFile).gameStarted
      = true ∧
    (handleEvent stableLib sessionPlayedOut (Event.KEYDOWN Keycode.SPACE) envNoFile).gameEnded
      = false ∧
    (handleEvent stableLib sessionPlayedOut (Event.KEYDOWN Keycode.SPACE) envNoFile).gameTime
      = 0 ∧
    (handleEvent stableLib sessionPlayedOut
      (Event.KEYDOWN Keycode.SPACE) envNoFile).currentBeatmap.notes = [] ∧
    (∀ t : Tick, spawnedColumns (handleEvent stableLib sessionPlayedOut
      (Event.KEYDOWN Keycode.SPACE) envNoFile) t = []) := by
  obtain ⟨-, he, hr, hp, -⟩ := sessionPlayedOut_ended
  rw [handleEvent_restart _ _ _ he]
  obtain ⟨-, -, h3, -, -, h6, h7, h8, h9⟩ := restart_fields sessionPlayedOut envNoFile
  refine ⟨he, rfl, h6, h7, h3, by rw [h9]; exact hp, ?_⟩
  intro t
  exact (update_nothing_pending _ t (h8.trans hr) (by rw [h9]; exact hp)).1

theorem validEvents_fileHeaderOnly : validEvents stableLib fileHeaderOnly = [] := by
  simp [validEvents, fileHeaderOnly, validEvent, isSkipped]

theorem loadFromFile_loaded_iff_witness :
    (loadFromFile stableLib Beatmap.new (some fileSingleEvent)).1 = true ∧
    (loadFromFile stableLib Beatmap.new (some fileHeaderOnly)).1 = false ∧
    (handleEvent stableLib sessionCombo10 (Event.KEYDOWN Keycode.r) envHeaderOnly).useRandomNotes
      = true :=
  ⟨(loadFromFile_loaded_iff stableLib Beatmap.new fileSingleEvent).1.mpr
      ⟨by rw [validEvents_fileSingleEvent stableLib rfl rfl]; simp,
        "song.mp3", rfl, by decide⟩,
    (loadFromFile_loaded_iff stableLib Beatmap.new fileHeaderOnly).2.2.1
      validEvents_fileHeaderOnly,
    (loadFromFile_loaded_iff stableLib Beatmap.new fileHeaderOnly).2.2.2
      validEvents_fileHeaderOnly sessionCombo10 envHeaderOnly rfl rfl⟩

/-! ## The libstdc++ sort meets the contract of std::sort -/

theorem set_of_getElem? {α : Type} (a : List α) (i : Nat) (x : α) (h : a[i]? = some x) : a.set i x = a := by
  induction a generalizing i with
  | nil => rfl
  | cons z t ih =>
    cases i with
    | zero =>
      simp only [List.getElem?_cons_zero, Option.some.injEq] at h
      subst h; rfl
    | succ k =>
      simp only [List.getElem?_cons_succ] at h
      simp [ih k h]

theorem lt_length_of_getElem? {α : Type} (a : List α) (i : Nat) (x : α) (h : a[i]? = some x) :
    i < a.length := by
  rcases Nat.lt_or_ge i a.length with h1 | h1
  · exact h1
  · rw [List.getElem?_eq_none h1] at h; cases h

theorem cons_set_perm {α : Type} (t : List α) (k : Nat) (p q : α) (h : k < t.length) :
    (p :: t.set k q).Perm (q :: t.set k p) := by
  induction t generalizing k with
  | nil => simp at h
  | cons z t ih =>
    cases k with
    | zero => exact List.Perm.swap _ _ _
    | succ k =>
      have hk : k < t.length := by simpa using h
      simp only [List.set_cons_succ]
      exact (List.Perm.swap _ _ _).trans (((ih k hk).cons z).trans (List.Perm.swap _ _ _))

/-- Writing `v` where `a[j]` was, after `a[j]` was copied to position `i`,
rearranges the array that has `v` at position `i`. -/
theorem set_set_perm_hole {α : Type} (a : List α) (i j : Nat) (y v : α) (hi : i < a.length)
    (hj : a[j]? = some y) :
    ((a.set i y).set j v).Perm (a.set i v) := by
  induction a generalizing i j with
  | nil => simp at hi
  | cons x t ih =>
    cases i with
    | zero =>
      cases j with
      | zero => simp
      | succ j =>
        simp only [List.getElem?_cons_succ] at hj
        simp only [List.set_cons_zero, List.set_cons_succ]
        have := cons_set_perm t j y v (lt_length_of_getElem? t j y hj)
        rwa [set_of_getElem? t j y hj] at this
    | succ i =>
      have hi' : i < t.length := by simpa using hi
      cases j with
      | zero =>
        simp only [List.getElem?_cons_zero, Option.some.injEq] at hj
        subst hj
        simp only [List.set_cons_zero, List.set_cons_succ]
        exact cons_set_perm t i v x hi'
      | succ j =>
        simp only [List.getElem?_cons_succ] at hj
        simp only [List.set_cons_succ]
        exact (ih i j hi' hj).cons x

theorem iterSwap_perm {α : Type} (a : List α) (i j : Nat) : (iterSwap a i j).Perm a := by
  unfold iterSwap
  cases hi : a[i]? with
  | none => exact List.Perm.refl _
  | some x =>
    cases hj : a[j]? with
    | none => exact List.Perm.refl _
    | some y =>
      have := set_set_perm_hole a i j y x (lt_length_of_getElem? a i x hi) hj
      rwa [set_of_getElem? a i x hi] at this

theorem moveMedianToFirst_perm {α : Type} (comp : α → α → Bool) (arr : List α) (result a b c : Nat) :
    (moveMedianToFirst comp arr result a b c).Perm arr := by
  unfold moveMedianToFirst
  split_ifs <;> exact iterSwap_perm _ _ _

theorem unguardedPartition_perm {α : Type} (comp : α → α → Bool) (pivot fuel : Nat) (a : List α)
    (first last : Nat) :
    (unguardedPartition comp pivot fuel a first last).1.Perm a := by
  induction fuel generalizing a first last with
  | zero => exact List.Perm.refl _
  | succ fuel ih =>
    simp only [unguardedPartition]
    split_ifs
    · exact (ih _ _ _).trans (iterSwap_perm _ _ _)
    · exact List.Perm.refl _

theorem scanUp_le {α : Type} (comp : α → α → Bool) (a : List α) (pivot fuel first : Nat)
    (h : first ≤ a.length) : scanUp comp a pivot fuel first ≤ a.length := by
  induction fuel generalizing first with
  | zero => exact h
  | succ fuel ih =>
    simp only [scanUp]
    split_ifs with hc
    · apply ih
      have : first < a.length := by
        by_contra hn
        have hge : a.length ≤ first := Nat.le_of_not_lt hn
        simp [compAt, List.getElem?_eq_none hge] at hc
      exact this
    · exact h

theorem scanDown_le {α : Type} (comp : α → α → Bool) (a : List α) (pivot last : Nat) :
    scanDown comp a pivot last ≤ last := by
  induction last with
  | zero => exact Nat.le_refl _
  | succ last ih =>
    simp only [scanDown]
    split_ifs
    · exact Nat.le_succ_of_le ih
    · exact Nat.le_refl _

theorem unguardedPartition_cut_le {α : Type} (comp : α → α → Bool) (pivot fuel : Nat) (a : List α)
    (first last : Nat) (h : first ≤ a.length) (hl : last ≤ a.length) :
    (unguardedPartition comp pivot fuel a first last).2 ≤ a.length := by
  induction fuel generalizing a first last with
  | zero => exact h
  | succ fuel ih =>
    simp only [unguardedPartition]
    have h1 := scanUp_le comp a pivot a.length first h
    have h2 := scanDown_le comp a pivot (last - 1)
    split_ifs with hc
    · have hlen : (iterSwap a (scanUp comp a pivot a.length first)
          (scanDown comp a pivot (last - 1))).length = a.length :=
        (iterSwap_perm _ _ _).length_eq
      exact Nat.le_trans (ih _ _ _ (by rw [hlen]; omega) (by rw [hlen]; omega)) (Nat.le_of_eq hlen)
    · exact h1

theorem unguardedPartitionPivot_perm {α : Type} (comp : α → α → Bool) (a : List α) (first last : Nat) :
    (unguardedPartitionPivot comp a first last).1.Perm a := by
  unfold unguardedPartitionPivot
  exact (unguardedPartition_perm _ _ _ _ _ _).trans (moveMedianToFirst_perm _ _ _ _ _ _)

theorem unguardedPartitionPivot_cut_le {α : Type} (comp : α → α → Bool) (a : List α) (first last : Nat)
    (h : first < a.length) (hl : last ≤ a.length) :
    (unguardedPartitionPivot comp a first last).2 ≤ a.length := by
  unfold unguardedPartitionPivot
  have hlen := (moveMedianToFirst_perm comp a first (first + 1) (first + (last - first) / 2)
    (last - 1)).length_eq
  simp only
  exact Nat.le_trans (unguardedPartition_cut_le _ _ _ _ _ _ (by rw [hlen]; omega)
    (by rw [hlen]; exact hl)) (Nat.le_of_eq hlen)

theorem getElem?_of_lt {α : Type} (a : List α) (i : Nat) (h : i < a.length) : ∃ x, a[i]? = some x :=
  ⟨a[i], List.getElem?_eq_getElem h⟩

theorem pushHeap_perm {α : Type} (comp : α → α → Bool) (first topIndex : Nat) (value : α) (fuel : Nat)
    (a : List α) (holeIndex : Nat) (h : first + holeIndex < a.length) :
    (pushHeap comp first topIndex value fuel a holeIndex).Perm (a.set (first + holeIndex) value) := by
  induction fuel generalizing a holeIndex with
  | zero => exact List.Perm.refl _
  | succ fuel ih =>
    simp only [pushHeap]
    split_ifs with hc
    · obtain ⟨p, hp⟩ := getElem?_of_lt a (first + (holeIndex - 1) / 2) (by omega)
      have hm : moveTo a (first + holeIndex) (first + (holeIndex - 1) / 2) =
          a.set (first + holeIndex) p := by simp [moveTo, hp]
      rw [hm]
      refine (ih _ _ (by rw [List.length_set]; omega)).trans ?_
      exact set_set_perm_hole a _ _ p value h hp
    · exact List.Perm.refl _

theorem adjustHeapLoop_perm {α : Type} (comp : α → α → Bool) (first len : Nat) (value : α) (fuel : Nat)
    (a : List α) (holeIndex : Nat) (h : holeIndex < len) (hl : first + len ≤ a.length) :
    ((adjustHeapLoop comp first len fuel a holeIndex).1.set
        (first + (adjustHeapLoop comp first len fuel a holeIndex).2) value).Perm
      (a.set (first + holeIndex) value) ∧
    (adjustHeapLoop comp first len fuel a holeIndex).2 < len ∧
    (adjustHeapLoop comp first len fuel a holeIndex).1.length = a.length := by
  induction fuel generalizing a holeIndex with
  | zero => exact ⟨List.Perm.refl _, h, rfl⟩
  | succ fuel ih =>
    simp only [adjustHeapLoop]
    split_ifs with h1 h2
    · obtain ⟨y, hy⟩ := getElem?_of_lt a (first + (2 * (holeIndex + 1) - 1)) (by omega)
      have hm : moveTo a (first + holeIndex) (first + (2 * (holeIndex + 1) - 1)) =
          a.set (first + holeIndex) y := by simp [moveTo, hy]
      rw [hm]
      obtain ⟨i1, i2, i3⟩ := ih (a.set (first + holeIndex) y) (2 * (holeIndex + 1) - 1)
        (by omega) (by rw [List.length_set]; exact hl)
      refine ⟨i1.trans ?_, i2, by rw [i3, List.length_set]⟩
      exact set_set_perm_hole a _ _ y value (by omega) hy
    · obtain ⟨y, hy⟩ := getElem?_of_lt a (first + 2 * (holeIndex + 1)) (by omega)
      have hm : moveTo a (first + holeIndex) (first + 2 * (holeIndex + 1)) =
          a.set (first + holeIndex) y := by simp [moveTo, hy]
      rw [hm]
      obtain ⟨i1, i2, i3⟩ := ih (a.set (first + holeIndex) y) (2 * (holeIndex + 1))
        (by omega) (by rw [List.length_set]; exact hl)
      refine ⟨i1.trans ?_, i2, by rw [i3, List.length_set]⟩
      exact set_set_perm_hole a _ _ y value (by omega) hy
    · exact ⟨List.Perm.refl _, h, rfl⟩

theorem adjustHeap_perm {α : Type} (comp : α → α → Bool) (a : List α) (first holeIndex len : Nat)
    (value : α) (h : holeIndex < len) (hl : first + len ≤ a.length) :
    (adjustHeap comp a first holeIndex len value).Perm (a.set (first + holeIndex) value) := by
  obtain ⟨i1, i2, i3⟩ := adjustHeapLoop_perm comp first len value len a holeIndex h hl
  unfold adjustHeap
  simp only
  split_ifs with hc
  · obtain ⟨y, hy⟩ := getElem?_of_lt (adjustHeapLoop comp first len len a holeIndex).1
      (first + (2 * ((adjustHeapLoop comp first len len a holeIndex).2 + 1) - 1))
      (by rw [i3]; omega)
    have hm : moveTo (adjustHeapLoop comp first len len a holeIndex).1
        (first + (adjustHeapLoop comp first len len a holeIndex).2)
        (first + (2 * ((adjustHeapLoop comp first len len a holeIndex).2 + 1) - 1)) =
        (adjustHeapLoop comp first len len a holeIndex).1.set
          (first + (adjustHeapLoop comp first len len a holeIndex).2) y := by
      simp [moveTo, hy]
    simp only [hm]
    refine (pushHeap_perm _ _ _ _ _ _ _ (by rw [List.length_set, i3]; omega)).trans ?_
    exact (set_set_perm_hole _ _ _ y value (by rw [i3]; omega) hy).trans i1
  · exact (pushHeap_perm _ _ _ _ _ _ _ (by rw [i3]; omega)).trans i1

theorem popHeap_perm {α : Type} (comp : α → α → Bool) (a : List α) (first last result : Nat)
    (h1 : first < last) (h2 : last ≤ a.length) (h3 : result < a.length) :
    (popHeap comp a first last result).Perm a := by
  obtain ⟨value, hv⟩ := getElem?_of_lt a result h3
  obtain ⟨f, hf⟩ := getElem?_of_lt a first (by omega)
  have hm : moveTo a result first = a.set result f := by simp [moveTo, hf]
  simp only [popHeap, hv, hm]
  refine (adjustHeap_perm comp _ first 0 (last - first) value (by omega)
    (by rw [List.length_set]; omega)).trans ?_
  have := set_set_perm_hole a result first f value h3 hf
  rw [set_of_getElem? a result value hv] at this
  exact this

theorem makeHeapLoop_perm {α : Type} (comp : α → α → Bool) (first len parent : Nat) (a : List α)
    (h : parent < len) (hl : first + len ≤ a.length) :
    (makeHeapLoop comp first len parent a).Perm a := by
  induction parent generalizing a with
  | zero =>
    obtain ⟨value, hv⟩ := getElem?_of_lt a first (by omega)
    simp only [makeHeapLoop, hv]
    have := adjustHeap_perm comp a first 0 len value h hl
    rwa [Nat.add_zero, set_of_getElem? a first value hv] at this
  | succ parent ih =>
    obtain ⟨value, hv⟩ := getElem?_of_lt a (first + (parent + 1)) (by omega)
    simp only [makeHeapLoop, hv]
    have hp := adjustHeap_perm comp a first (parent + 1) len value h hl
    rw [set_of_getElem? a _ value hv] at hp
    exact (ih _ (by omega) (by rw [hp.length_eq]; exact hl)).trans hp

theorem makeHeap_perm {α : Type} (comp : α → α → Bool) (a : List α) (first last : Nat)
    (hl : last ≤ a.length) : (makeHeap comp a first last).Perm a := by
  unfold makeHeap
  split_ifs with h
  · exact List.Perm.refl _
  · exact makeHeapLoop_perm comp first (last - first) _ a (by omega) (by omega)

theorem sortHeap_perm {α : Type} (comp : α → α → Bool) (first n : Nat) (a : List α)
    (hl : first + n ≤ a.length) : (sortHeap comp first n a).Perm a := by
  induction n generalizing a with
  | zero => exact List.Perm.refl _
  | succ n ih =>
    simp only [sortHeap]
    split_ifs with h
    · have hp := popHeap_perm comp a first (first + n) (first + n) (by omega) (by omega) (by omega)
      exact (ih _ (by rw [hp.length_eq]; omega)).trans hp
    · exact List.Perm.refl _

theorem partialSort_perm {α : Type} (comp : α → α → Bool) (a : List α) (first last : Nat)
    (h : first ≤ last) (hl : last ≤ a.length) : (partialSort comp a first last last).Perm a := by
  have hs : heapSelect comp a first last last = makeHeap comp a first last := by
    simp [heapSelect, heapSelectLoop]
  unfold partialSort
  rw [hs]
  have hp := makeHeap_perm comp a first last hl
  exact (sortHeap_perm comp first (last - first) _ (by rw [hp.length_eq]; omega)).trans hp

theorem introsortLoop_perm {α : Type} (comp : α → α → Bool) (depthLimit : Nat) (a : List α)
    (first last : Nat) (hl : last ≤ a.length) :
    (introsortLoop comp depthLimit a first last).Perm a := by
  induction depthLimit generalizing a first last with
  | zero =>
    simp only [introsortLoop]
    split_ifs with h
    · exact partialSort_perm comp a first last (by omega) hl
    · exact List.Perm.refl _
  | succ d ih =>
    simp only [introsortLoop]
    split_ifs with h
    · have hp := unguardedPartitionPivot_perm comp a first last
      have hc := unguardedPartitionPivot_cut_le comp a first last (by omega) hl
      have h1 := ih (unguardedPartitionPivot comp a first last).1
        (unguardedPartitionPivot comp a first last).2 last (by rw [hp.length_eq]; exact hl)
      have h2 := ih (introsortLoop comp d (unguardedPartitionPivot comp a first last).1
        (unguardedPartitionPivot comp a first last).2 last) first
        (unguardedPartitionPivot comp a first last).2
        (by rw [h1.length_eq, hp.length_eq]; exact hc)
      exact h2.trans (h1.trans hp)
    · exact List.Perm.refl _

/-- What the linear-insert loop does to an array `q ++ h :: r` whose hole is
at position `q.length`: `val` lands in `q` before the longest run of elements
greater than it at the end of `q`. -/
theorem unguardedLinearInsertLoop_spec {α : Type} (comp : α → α → Bool) (val : α) (n : Nat) (q : List α)
    (h : α) (r : List α) (hq : q.length = n) :
    ∃ q1 q2, q = q1 ++ q2 ∧
      unguardedLinearInsertLoop comp val n (q ++ h :: r) = q1 ++ val :: q2 ++ r ∧
      (∀ y ∈ q2, comp val y = true) ∧
      (∀ z, q1.getLast? = some z → comp val z = false) := by
  induction n generalizing q h r with
  | zero =>
    have : q = [] := List.length_eq_zero.mp hq
    subst this
    exact ⟨[], [], rfl, by simp [unguardedLinearInsertLoop], by simp, by simp⟩
  | succ n ih =>
    rcases List.eq_nil_or_concat q with hnil | ⟨q', x, hqx⟩
    · subst hnil; simp at hq
    · rw [List.concat_eq_append] at hqx
      subst hqx
      have hq' : q'.length = n := by simpa using hq
      have hget : (q' ++ [x] ++ h :: r)[n]? = some x := by
        rw [List.append_assoc, List.getElem?_append_right (by omega)]
        simp [hq']
      have hset : ∀ w, (q' ++ [x] ++ h :: r).set (n + 1) w = q' ++ [x] ++ w :: r := by
        intro w
        rw [List.set_append_right _ _ (by simp [hq'])]
        simp [hq']
      simp only [unguardedLinearInsertLoop, hget, hset]
      by_cases hc : comp val x = true
      · rw [if_pos hc]
        obtain ⟨q1, q2, e1, e2, e3, e4⟩ := ih q' x (x :: r) hq'
        refine ⟨q1, q2 ++ [x], by rw [e1, List.append_assoc], ?_, ?_, e4⟩
        · have : q' ++ [x] ++ x :: r = q' ++ x :: x :: r := by simp
          rw [this, e2]
          simp
        · intro y hy
          rcases List.mem_append.mp hy with hy | hy
          · exact e3 y hy
          · rw [List.mem_singleton] at hy
            subst hy
            exact hc
      · rw [if_neg hc]
        refine ⟨q' ++ [x], [], by simp, by simp, by simp, ?_⟩
        intro z hz
        have hlast : (q' ++ [x]).getLast? = some x := by simp
        rw [hlast, Option.some.injEq] at hz
        subst hz
        simpa using hc

/-- Inserting `val` that way into a sorted `q` keeps it sorted. -/
theorem sorted_insert {α : Type} (comp : α → α → Bool)
    (hasym : ∀ x y, comp x y = true → comp y x = false)
    (htrans : ∀ x y z, comp y x = false → comp z y = false → comp z x = false)
    (val : α) (q1 q2 : List α)
    (hs : (q1 ++ q2).Pairwise (fun x y => comp y x = false))
    (h2 : ∀ y ∈ q2, comp val y = true)
    (h1 : ∀ z, q1.getLast? = some z → comp val z = false) :
    (q1 ++ val :: q2).Pairwise (fun x y => comp y x = false) := by
  obtain ⟨s1, s2, s3⟩ := List.pairwise_append.mp hs
  have hq1 : ∀ x ∈ q1, comp val x = false := by
    rcases List.eq_nil_or_concat q1 with hnil | ⟨q1', z, hz⟩
    · subst hnil; simp
    · rw [List.concat_eq_append] at hz
      subst hz
      have hzv : comp val z = false := h1 z (by simp)
      intro x hx
      rcases List.mem_append.mp hx with hx | hx
      · have := (List.pairwise_append.mp s1).2.2 x hx z (List.mem_singleton.mpr rfl)
        exact htrans x z val this hzv
      · rw [List.mem_singleton] at hx
        subst hx
        exact hzv
  rw [List.pairwise_append]
  refine ⟨s1, ?_, ?_⟩
  · rw [List.pairwise_cons]
    exact ⟨fun y hy => hasym val y (h2 y hy), s2⟩
  · intro x hx y hy
    rcases List.mem_cons.mp hy with rfl | hy
    · exact hq1 x hx
    · exact s3 x hx y hy

theorem split_at_index {α : Type} (a : List α) (i : Nat) (x : α) (h : a[i]? = some x) :
    a = a.take i ++ x :: a.drop (i + 1) ∧ (a.take i).length = i := by
  have hi := lt_length_of_getElem? a i x h
  have hx : a[i] = x := by
    rw [List.getElem?_eq_getElem hi] at h
    exact Option.some.inj h
  constructor
  · conv => lhs; rw [← List.take_append_drop i a]
    rw [← hx, List.getElem_cons_drop]
  · simp [List.length_take]; omega

/-- One unguarded linear insert at position `i` behind a sorted prefix
extends the sorted prefix by one and rearranges the array. -/
theorem unguardedLinearInsert_step {α : Type} (comp : α → α → Bool)
    (hasym : ∀ x y, comp x y = true → comp y x = false)
    (htrans : ∀ x y z, comp y x = false → comp z y = false → comp z x = false)
    (a : List α) (i : Nat) (hi : i < a.length)
    (hs : (a.take i).Pairwise (fun x y => comp y x = false)) :
    (unguardedLinearInsert comp a i).Perm a ∧
    ((unguardedLinearInsert comp a i).take (i + 1)).Pairwise (fun x y => comp y x = false) := by
  obtain ⟨val, hv⟩ := getElem?_of_lt a i hi
  obtain ⟨hsplit, hlen⟩ := split_at_index a i val hv
  obtain ⟨q1, q2, e1, e2, e3, e4⟩ :=
    unguardedLinearInsertLoop_spec comp val i (a.take i) val (a.drop (i + 1)) hlen
  have hres : unguardedLinearInsert comp a i = q1 ++ val :: q2 ++ a.drop (i + 1) := by
    simp only [unguardedLinearInsert, hv]
    rw [← e2, ← hsplit]
  have hl : (q1 ++ val :: q2).length = i + 1 := by
    have : (q1 ++ q2).length = i := by rw [← e1]; exact hlen
    simp only [List.length_append, List.length_cons] at this ⊢
    omega
  constructor
  · rw [hres]
    conv => rhs; rw [hsplit, e1]
    simp only [List.append_assoc, List.cons_append]
    exact List.Perm.append_left _ List.perm_middle.symm
  · rw [hres]
    have : (q1 ++ val :: q2 ++ a.drop (i + 1)).take (i + 1) = q1 ++ val :: q2 := by
      rw [List.take_append_of_le_length (by omega), List.take_of_length_le (by omega)]
    rw [this]
    exact sorted_insert comp hasym htrans val q1 q2 (by rw [← e1]; exact hs) e3 e4

/-- One round of the guarded insertion sort (from position 0) does the same. -/
theorem insertionStep_step {α : Type} (comp : α → α → Bool)
    (hasym : ∀ x y, comp x y = true → comp y x = false)
    (htrans : ∀ x y z, comp y x = false → comp z y = false → comp z x = false)
    (a : List α) (i : Nat) (hi : i < a.length)
    (hs : (a.take i).Pairwise (fun x y => comp y x = false)) :
    (insertionStep comp 0 a i).Perm a ∧
    ((insertionStep comp 0 a i).take (i + 1)).Pairwise (fun x y => comp y x = false) := by
  unfold insertionStep
  split_ifs with hc
  · obtain ⟨val, hv⟩ := getElem?_of_lt a i hi
    obtain ⟨f, hf⟩ := getElem?_of_lt a 0 (by omega)
    obtain ⟨hsplit, hlen⟩ := split_at_index a i val hv
    have hvf : comp val f = true := by simpa [compAt, hv, hf] using hc
    simp only [hv, List.take_zero, List.nil_append, List.drop_zero, Nat.sub_zero]
    constructor
    · conv => rhs; rw [hsplit]
      simp only [List.cons_append]
      exact List.perm_middle.symm
    · have : (val :: List.take i a ++ List.drop (i + 1) a).take (i + 1) = val :: a.take i := by
        rw [List.take_append_of_le_length (by simp [hlen])]
        rw [List.take_of_length_le (by simp [hlen])]
      rw [this, List.pairwise_cons]
      refine ⟨?_, hs⟩
      intro y hy
      have hfv : comp f val = false := hasym val f hvf
      have hi0 : 0 < i := by
        rcases Nat.eq_zero_or_pos i with h0 | h0
        · subst h0
          rw [hf, Option.some.injEq] at hv
          subst hv
          rw [hfv] at hvf
          cases hvf
        · exact h0
      have htk : a.take i = f :: (a.take i).tail := by
        cases ha : a with
        | nil => rw [ha] at hf; simp at hf
        | cons a0 t =>
          rw [ha] at hf
          simp only [List.getElem?_cons_zero, Option.some.injEq] at hf
          subst hf
          obtain ⟨k, rfl⟩ : ∃ k, i = k + 1 := ⟨i - 1, by omega⟩
          simp
      rw [htk] at hy hs
      rcases List.mem_cons.mp hy with rfl | hy
      · exact hfv
      · exact htrans val f y hfv ((List.pairwise_cons.mp hs).1 y hy)
  · exact unguardedLinearInsert_step comp hasym htrans a i hi hs

/-- Folding a step that extends the sorted prefix by one over the positions
`start, start + 1, ...` sorts the prefix up to the last position. -/
theorem foldl_steps {α : Type} (comp : α → α → Bool) (step : List α → Nat → List α)
    (hstep : ∀ (a : List α) (i : Nat), i < a.length →
      (a.take i).Pairwise (fun x y => comp y x = false) →
      (step a i).Perm a ∧ ((step a i).take (i + 1)).Pairwise (fun x y => comp y x = false))
    (k start : Nat) (a : List α) (hk : start + k ≤ a.length)
    (hs : (a.take start).Pairwise (fun x y => comp y x = false)) :
    ((List.range' start k).foldl step a).Perm a ∧
    (((List.range' start k).foldl step a).take (start + k)).Pairwise
      (fun x y => comp y x = false) := by
  induction k generalizing start a with
  | zero => exact ⟨List.Perm.refl _, hs⟩
  | succ k ih =>
    obtain ⟨p1, s1⟩ := hstep a start (by omega) hs
    have := ih (start + 1) (step a start) (by rw [p1.length_eq]; omega) s1
    simp only [List.range'_succ, List.foldl_cons]
    refine ⟨this.1.trans p1, ?_⟩
    have e : start + (k + 1) = start + 1 + k := by omega
    rw [e]
    exact this.2

theorem finalInsertionSort_spec {α : Type} (comp : α → α → Bool)
    (hasym : ∀ x y, comp x y = true → comp y x = false)
    (htrans : ∀ x y z, comp y x = false → comp z y = false → comp z x = false)
    (a : List α) :
    (finalInsertionSort comp a 0 a.length).Perm a ∧
    (finalInsertionSort comp a 0 a.length).Pairwise (fun x y => comp y x = false) := by
  have one : ∀ (b : List α) (n : Nat), n ≤ b.length →
      (insertionSort comp b 0 n).Perm b ∧
      ((insertionSort comp b 0 n).take n).Pairwise (fun x y => comp y x = false) := by
    intro b n hn
    unfold insertionSort
    split_ifs with h0
    · subst h0
      exact ⟨List.Perm.refl _, by simp⟩
    · have hb : (b.take (0 + 1)).Pairwise (fun x y => comp y x = false) := by
        cases b with
        | nil => simp
        | cons x t => simp
      have := foldl_steps comp (insertionStep comp 0)
        (insertionStep_step comp hasym htrans) (n - (0 + 1)) (0 + 1) b (by omega) hb
      have e : 0 + 1 + (n - (0 + 1)) = n := by omega
      rw [e] at this
      exact this
  unfold finalInsertionSort
  split_ifs with h
  · obtain ⟨p1, s1⟩ := one a (0 + 16) (by omega)
    obtain ⟨p2, s2⟩ := foldl_steps comp (unguardedLinearInsert comp)
      (unguardedLinearInsert_step comp hasym htrans) (a.length - (0 + 16)) (0 + 16)
      (insertionSort comp a 0 (0 + 16)) (by rw [p1.length_eq]; omega) s1
    unfold unguardedInsertionSort
    refine ⟨p2.trans p1, ?_⟩
    have e : 0 + 16 + (a.length - (0 + 16)) = a.length := by omega
    have hl := (p2.trans p1).length_eq
    rw [e, List.take_of_length_le (Nat.le_of_eq hl)] at s2
    exact s2
  · obtain ⟨p1, s1⟩ := one a a.length (Nat.le_refl _)
    refine ⟨p1, ?_⟩
    rw [List.take_of_length_le (Nat.le_of_eq p1.length_eq)] at s1
    exact s1

/-- The libstdc++ `std::sort` meets the contract of `std::sort`: for a
comparator that is asymmetric and whose negation is transitive, the result is
a permutation of the input in which no element is less than an earlier one. -/
theorem gnuSort_spec {α : Type} (comp : α → α → Bool)
    (hasym : ∀ x y, comp x y = true → comp y x = false)
    (htrans : ∀ x y z, comp y x = false → comp z y = false → comp z x = false)
    (a : List α) :
    (gnuSort comp a).Perm a ∧ (gnuSort comp a).Pairwise (fun x y => comp y x = false) := by
  unfold gnuSort
  split_ifs with h
  · have : a = [] := List.length_eq_zero.mp h
    subst this
    exact ⟨List.Perm.refl _, List.Pairwise.nil⟩
  · have hp := introsortLoop_perm comp (Nat.log2 a.length * 2) a 0 a.length (Nat.le_refl _)
    have hf := finalInsertionSort_spec comp hasym htrans
      (introsortLoop comp (Nat.log2 a.length * 2) a 0 a.length)
    rw [hp.length_eq] at hf
    exact ⟨hf.1.trans hp, hf.2⟩

theorem timeLt_asymm (x y : BeatmapNote) (h : timeLt x y = true) : timeLt y x = false := by
  simp only [timeLt, decide_eq_true_eq, decide_eq_false_iff_not] at h ⊢
  exact lt_asymm h

theorem timeLt_trans (x y z : BeatmapNote) (h1 : timeLt y x = false) (h2 : timeLt z y = false) :
    timeLt z x = false := by
  simp only [timeLt, decide_eq_false_iff_not, not_lt] at h1 h2 ⊢
  exact le_trans h1 h2

/-- The contract test inside `gnuLib` never fails: its `std::sort` is the
libstdc++ algorithm. -/
theorem gnuLib_sort (l : List BeatmapNote) : gnuLib.sort l = gnuSort timeLt l := by
  obtain ⟨hp, hs⟩ := gnuSort_spec timeLt timeLt_asymm timeLt_trans l
  have h : meetsSortContract (gnuSort timeLt l) l := by
    refine ⟨hp, hs.imp ?_⟩
    intro a b hab
    simpa [timeLt] using hab
  simp only [gnuLib, h, if_true]

theorem validEvents_fileChords : validEvents gnuLib fileChords = chordEvents := by
  simp [validEvents, fileChords, validEvent, isSkipped, splitLine, gnuLib, plainStof,
    plainStoi, parseNat, digitsValue, chordEvents]

theorem log2_18 : Nat.log2 18 = 4 := by simp [Nat.log2]

set_option maxRecDepth 100000 in

/-- The libstdc++ `std::sort` on the nine chords: the two events of the first
chord and those of the fifth chord come out in swapped order. -/
theorem gnuSort_chordEvents :
    gnuSort timeLt chordEvents =
      [
      { time := 1, column := 1 }, { time := 1, column := 0 }, { time := 2, column := 0 },
      { time := 2, column := 1 }, { time := 3, column := 0 }, { time := 3, column := 1 },
      { time := 4, column := 0 }, { time := 4, column := 1 }, { time := 5, column := 1 },
      { time := 5, column := 0 }, { time := 6, column := 0 }, { time := 6, column := 1 },
      { time := 7, column := 0 }, { time := 7, column := 1 }, { time := 8, column := 0 },
      { time := 8, column := 1 }, { time := 9, column := 0 }, { time := 9, column := 1 } ] := by
  have h : finalInsertionSort timeLt (introsortLoop timeLt (4 * 2) chordEvents 0 18) 0 18 =
      [
      { time := 1, column := 1 }, { time := 1, column := 0 }, { time := 2, column := 0 },
      { time := 2, column := 1 }, { time := 3, column := 0 }, { time := 3, column := 1 },
      { time := 4, column := 0 }, { time := 4, column := 1 }, { time := 5, column := 1 },
      { time := 5, column := 0 }, { time := 6, column := 0 }, { time := 6, column := 1 },
      { time := 7, column := 0 }, { time := 7, column := 1 }, { time := 8, column := 0 },
      { time := 8, column := 1 }, { time := 9, column := 0 }, { time := 9, column := 1 } ] := by decide
  simp only [gnuSort]
  rw [show chordEvents.length = 18 from rfl, log2_18]
  exact h

/-- C11 (counterexample): the file with nine two-note chords (18 data lines,
already in time order) loaded with the `std::sort` of libstdc++.  The range is
longer than 16, so the introsort partition runs; the loaded sequence has the
events of the chord at 1.0 s and of the chord at 5.0 s in swapped order
(column 1 before column 0), so the load does not keep file order among
equal-time events. -/
theorem loadFromFile_not_stable :
    validEvents gnuLib fileChords = chordEvents ∧
    (loadFromFile gnuLib Beatmap.new (some fileChords)).2.notes =
      [
      { time := 1, column := 1 }, { time := 1, column := 0 }, { time := 2, column := 0 },
      { time := 2, column := 1 }, { time := 3, column := 0 }, { time := 3, column := 1 },
      { time := 4, column := 0 }, { time := 4, column := 1 }, { time := 5, column := 1 },
      { time := 5, column := 0 }, { time := 6, column := 0 }, { time := 6, column := 1 },
      { time := 7, column := 0 }, { time := 7, column := 1 }, { time := 8, column := 0 },
      { time := 8, column := 1 }, { time := 9, column := 0 }, { time := 9, column := 1 } ] ∧
    ¬ keepsFileOrderOfTies gnuLib Beatmap.new fileChords := by
  have hl : (loadFromFile gnuLib Beatmap.new (some fileChords)).2.notes =
      gnuSort timeLt chordEvents := by
    rw [loadFromFile_notes, validEvents_fileChords, gnuLib_sort]
  refine ⟨validEvents_fileChords, hl.trans gnuSort_chordEvents, ?_⟩
  intro h
  have h1 := h 1
  rw [hl, gnuSort_chordEvents, validEvents_fileChords] at h1
  simp [chordEvents, List.filter_cons] at h1

theorem loadFromFile_order_determined_witness :
    (loadFromFile gnuLib Beatmap.new (some fileMixed)).2.notes =
      stableSort (validEvents gnuLib fileMixed) ∧
    ((loadFromFile gnuLib Beatmap.new (some fileMixed)).2.notes).Pairwise
      (fun x y => x.time < y.time) ∧
    keepsFileOrderOfTies gnuLib Beatmap.new fileMixed :=
  loadFromFile_order_determined gnuLib Beatmap.new fileMixed
    (by rw [validEvents_fileMixed _ rfl rfl]; norm_num)

end OsuMania
